import Mathlib

/-!
# Verification of the git-file-identifiers Identifier Engine

Shallow embedding of the JavaScript sources:
* `src/unnamed/part_003` (`normalizeFilePath`),
* `src/unnamed/part_004` (`normalizeMetadata`, `sortObjectKeys`, `canonicalizeMetadata`),
* `src/mjs/src/utils/hash.mjs` (`isValidGitHash`, `validateGitHash`),
* `src/mjs/src/identifier.mjs` (`generateIdentifier`),
* `src/mjs/src/change-detection.mjs` (`generateChangeReport`, `loadManifest`, `saveManifest`),
* `src/mjs/src/utils/git.mjs` (`generateBatchIdentifiers`).

JavaScript values flowing through the metadata pipeline are modelled by `JsonVal`;
a JavaScript object is an insertion-ordered association list (faithful to JS
own-property order for the non-integer-like keys this library uses).  `undefined`
is represented by a failed lookup.  External collaborators (Node's `crypto`
module and the `Date` constructor) are abstracted into a `JsEnv` record of
functions, since they are not part of this repository.
-/

set_option maxRecDepth 20000

/-- A JavaScript (JSON-like) value: string, number, boolean, null, array, object.
Arrays and objects are first-class cons-chains (`arrCons`/`objCons`), which keeps
the type non-nested so that every function on it is structurally recursive and
kernel-computable; an object chain is an insertion-ordered sequence of
key/value fields, faithful to JS own-property order for the non-integer-like
keys this library uses. -/
inductive JsonVal where
  | str (s : String)
  | num (n : Int)
  | boolean (b : Bool)
  | null
  | arrNil
  | arrCons (hd : JsonVal) (tl : JsonVal)
  | objNil
  | objCons (key : String) (val : JsonVal) (tl : JsonVal)
deriving DecidableEq

/-- A JavaScript object (insertion-ordered association list), the shape of raw and
normalized metadata records. -/
abbrev JsObj := List (String × JsonVal)

/-- Property lookup `o[k]` on a JS object; `none` models `undefined`. -/
def lookupVal (k : String) : JsObj → Option JsonVal
  | [] => none
  | (k', v) :: t => if k' == k then some v else lookupVal k t

/-- JavaScript truthiness: `null`, `""`, `0` and `false` are falsy; arrays and
objects are always truthy.  (`NaN` does not arise in this model.) -/
def isFalsy : JsonVal → Bool
  | .str s => s == ""
  | .num n => n == 0
  | .boolean b => !b
  | .null => true
  | _ => false

/-- Truthiness of a possibly-absent property: `undefined` is falsy. -/
def isFalsyOpt : Option JsonVal → Bool
  | none => true
  | some v => isFalsy v

/-- `typeof` rendering used in error messages. -/
def typeName : JsonVal → String
  | .str _ => "string"
  | .num _ => "number"
  | .boolean _ => "boolean"
  | _ => "object"

/-! ## Hash utilities (`src/mjs/src/utils/hash.mjs`) -/

/-- A hexadecimal digit, case-insensitively (`[0-9a-f]` with the `i` flag). -/
def isHexCharCI (c : Char) : Bool :=
  (48 ≤ c.toNat && c.toNat ≤ 57) || (97 ≤ c.toNat && c.toNat ≤ 102) || (65 ≤ c.toNat && c.toNat ≤ 70)

/-- `isValidGitHash` on a string: 40-character hexadecimal, case-insensitive
(`/^[0-9a-f]{40}$/i`). -/
def isValidHashStr (s : String) : Bool :=
  s.length == 40 && s.data.all isHexCharCI

/-- `isValidGitHash` on a JS value: non-string input returns `false`. -/
def isValidGitHash : JsonVal → Bool
  | .str s => isValidHashStr s
  | _ => false

/-! ## ASCII lower-casing

`String.prototype.toLowerCase` is applied in the source only to strings that
already passed `validateGitHash`, i.e. to 40-character hex strings, on which it
coincides with ASCII lower-casing. -/

/-- ASCII lower-casing of one character (the only case `toLowerCase` exercises on
validated hex strings). -/
def charLower (c : Char) : Char :=
  if 65 ≤ c.toNat && c.toNat ≤ 90 then Char.ofNat (c.toNat + 32) else c

/-- ASCII lower-casing of a string. -/
def strLower (s : String) : String := String.mk (s.data.map charLower)

/-! ## Path normalization (`src/unnamed/part_003`, `normalizeFilePath`) -/

/-- `filePath.replace(/\\/g, '/')`: every backslash becomes a forward slash. -/
def replaceBackslashes (l : List Char) : List Char :=
  l.map (fun c => if c == '\\' then '/' else c)

/-- `normalized.replace(/^\.\//, '')`: strip one leading `./`. -/
def stripLeadingDotSlash : List Char → List Char
  | '.' :: '/' :: t => t
  | l => l

/-- `normalized.replace(/\/+$/, '')`: strip all trailing slashes. -/
def stripTrailingSlashes (l : List Char) : List Char :=
  (l.reverse.dropWhile (fun c => c == '/')).reverse

/-- Worker for `normalized.replace(/\/+/g, '/')`; the flag records whether the
previous emitted character was a slash. -/
def collapseAux : Bool → List Char → List Char
  | _, [] => []
  | prev, c :: rest =>
    if c == '/' then
      if prev then collapseAux true rest else '/' :: collapseAux true rest
    else c :: collapseAux false rest

/-- `normalized.replace(/\/+/g, '/')`: collapse runs of slashes to one. -/
def collapseSlashes (l : List Char) : List Char := collapseAux false l

/-- `normalizeFilePath` from `src/unnamed/part_003`: backslashes to slashes, strip
one leading `./`, strip trailing slashes, collapse repeated slashes — in this
order. -/
def normalizeFilePathStr (s : String) : String :=
  String.mk (collapseSlashes (stripTrailingSlashes (stripLeadingDotSlash (replaceBackslashes s.data))))

/-! ## Metadata normalization (`src/unnamed/part_004`, `normalizeMetadata`) -/

/-- Abstraction of the JavaScript runtime facilities the Engine calls but this
repository does not define: `crypto.createHash(algorithm).update(s, 'utf8').digest(encoding)`
(as a function of algorithm, encoding and input) and the composite
`v => new Date(v)` / `isNaN` check / `toISOString()` (returning `none` exactly
when `isNaN(date.getTime())`). -/
structure JsEnv where
  cryptoHash : String → String → String → String
  dateNorm : JsonVal → Option String

/-- The required metadata fields, in the order `normalizeMetadata` checks them. -/
def requiredFields : List String :=
  ["source", "owner", "repo", "branch", "commitHash", "filePath", "fileHash"]

/-- The required-field loop: the first field whose value is missing or falsy,
if any. -/
def reqCheck (raw : JsObj) : Option String :=
  requiredFields.find? (fun f => isFalsyOpt (lookupVal f raw))

/-- `validateGitHash(value, fieldName)` followed by extraction of the validated
string. -/
def getHashStr (v : Option JsonVal) (fieldName : String) : Except String String :=
  match v with
  | some (.str s) =>
    if isValidHashStr s then .ok s
    else .error ("Invalid Git hash format for " ++ fieldName ++ ": expected 40-character hex string")
  | _ => .error ("Invalid Git hash format for " ++ fieldName ++ ": expected 40-character hex string")

/-- `normalizeFilePath(rawMeta.filePath)`: throws `TypeError` on non-strings. -/
def normPathE (v : Option JsonVal) : Except String String :=
  match v with
  | some (.str s) => .ok (normalizeFilePathStr s)
  | some v => .error ("Expected string, got " ++ typeName v)
  | none => .error "Expected string, got undefined"

/-- The `lastModified` handling of `normalizeMetadata`: a truthy value is parsed
as a date (unparsable is a hard error) and reformatted; `null`/`undefined` are
deleted by the final clean-up loop; other falsy values (e.g. `""`, `0`, `false`)
are kept verbatim. -/
def lastModE (env : JsEnv) (v : Option JsonVal) : Except String (Option JsonVal) :=
  match v with
  | none => .ok none
  | some v =>
    if isFalsy v then
      match v with
      | .null => .ok none
      | _ => .ok (some v)
    else
      match env.dateNorm v with
      | some iso => .ok (some (.str iso))
      | none => .error "Invalid timestamp"

/-- Optional fields `htmlUrl` / `repoPath`: added only when truthy. -/
def optField (v : Option JsonVal) : Option JsonVal :=
  match v with
  | some x => if isFalsy x then none else some x
  | none => none

/-- A required field's value after `reqCheck` has passed (the `none` branch is
unreachable then). -/
def getVal (v : Option JsonVal) : JsonVal := v.getD .null

/-- The normalized record in the insertion order used by the source: the eight
fixed keys (with `lastModified` possibly deleted), then `htmlUrl` and `repoPath`
when present. -/
def buildNormalized (br : JsonVal) (ch fh fp : String) (lm : Option JsonVal)
    (ow rp sr : JsonVal) (hu rpv : Option JsonVal) : JsObj :=
  [("branch", br), ("commitHash", .str ch), ("fileHash", .str fh), ("filePath", .str fp)]
    ++ (match lm with | some v => [("lastModified", v)] | none => [])
    ++ [("owner", ow), ("repo", rp), ("source", sr)]
    ++ (match hu with | some v => [("htmlUrl", v)] | none => [])
    ++ (match rpv with | some v => [("repoPath", v)] | none => [])

/-- `normalizeMetadata` from `src/unnamed/part_004`: required-field check, hash
validation, path normalization, timestamp normalization, hash lower-casing, and
construction of the fixed-field-set record. -/
def normalizeMetadata (env : JsEnv) (raw : JsObj) : Except String JsObj :=
  match reqCheck raw with
  | some f => .error ("Missing required field: " ++ f)
  | none =>
    match getHashStr (lookupVal "commitHash" raw) "commitHash" with
    | .error e => .error e
    | .ok ch =>
      match getHashStr (lookupVal "fileHash" raw) "fileHash" with
      | .error e => .error e
      | .ok fh =>
        match normPathE (lookupVal "filePath" raw) with
        | .error e => .error e
        | .ok fp =>
          match lastModE env (lookupVal "lastModified" raw) with
          | .error e => .error e
          | .ok lm =>
            .ok (buildNormalized (getVal (lookupVal "branch" raw)) (strLower ch) (strLower fh)
                  fp lm (getVal (lookupVal "owner" raw)) (getVal (lookupVal "repo" raw))
                  (getVal (lookupVal "source" raw)) (optField (lookupVal "htmlUrl" raw))
                  (optField (lookupVal "repoPath" raw)))

/-! ## Canonical serialization (`src/unnamed/part_004`, `sortObjectKeys` and
`canonicalizeMetadata`)

The recursive functions over `JsonVal` values are written with an explicit `Nat`
fuel (structural recursion on the fuel), so that they reduce inside the kernel;
`sizeOf` strictly decreases through every recursive call, so `sizeOf` of the
argument is always enough fuel (the `_congr` lemmas below). -/

/-- Structural size of a value, used as recursion fuel. -/
def jsize : JsonVal → Nat
  | .str _ => 1
  | .num _ => 1
  | .boolean _ => 1
  | .null => 1
  | .arrNil => 1
  | .arrCons h t => 1 + jsize h + jsize t
  | .objNil => 1
  | .objCons _ v t => 1 + jsize v + jsize t

/-- The fields of an object chain, in insertion order (`Object.entries`). -/
def objFields : JsonVal → JsObj
  | .objCons k v t => (k, v) :: objFields t
  | _ => []

/-- The elements of an array chain, in order. -/
def arrElems : JsonVal → List JsonVal
  | .arrCons h t => h :: arrElems t
  | _ => []

/-- Rebuild an object chain from an association list. -/
def objOfList : JsObj → JsonVal
  | [] => .objNil
  | (k, v) :: t => .objCons k v (objOfList t)

/-- `typeof value === 'object' && value !== null && !Array.isArray(value)`. -/
def isPlainObj : JsonVal → Bool
  | .objNil => true
  | .objCons _ _ _ => true
  | _ => false

/-- One hex digit, lower case, as emitted by `JSON.stringify` in `\u00XX`
escapes. -/
def hexDig (n : Nat) : Char :=
  if n < 10 then Char.ofNat (48 + n) else Char.ofNat (87 + n)

/-- `JSON.stringify` escaping of one string character: `"` and `\` get a
backslash, the five named control escapes use their short form, the remaining
control characters become `\u00XX`, everything else is emitted verbatim. -/
def escChar (c : Char) : List Char :=
  if c == '"' then ['\\', '"']
  else if c == '\\' then ['\\', '\\']
  else if c.toNat == 8 then ['\\', 'b']
  else if c.toNat == 9 then ['\\', 't']
  else if c.toNat == 10 then ['\\', 'n']
  else if c.toNat == 12 then ['\\', 'f']
  else if c.toNat == 13 then ['\\', 'r']
  else if c.toNat < 32 then ['\\', 'u', '0', '0', hexDig (c.toNat / 16), hexDig (c.toNat % 16)]
  else [c]

/-- `JSON.stringify` of a string value, as a character list. -/
def quoteJson (s : String) : List Char :=
  '"' :: (s.data.flatMap escChar) ++ ['"']

/-- Keys are sorted with the default `Array.prototype.sort()` comparator, which
on the ASCII keys of this library coincides with the `String` order. -/
def sortStrings (l : List String) : List String :=
  l.insertionSort (· ≤ ·)

/-- Fuel-driven `sortObjectKeys` from `src/unnamed/part_004`: non-objects
(including arrays) are returned unchanged; for an object the keys are sorted and
each value is looked up (`obj[key]`) and recursively sorted exactly when it is a
plain object (`typeof value === 'object' && value !== null && !Array.isArray(value)`).
Array elements are NOT recursed into. -/
def sortObjectKeysF : Nat → JsonVal → JsonVal
  | 0, v => v
  | fuel + 1, v =>
    if isPlainObj v then
      let l := objFields v
      objOfList ((sortStrings (l.map (·.1))).map (fun k =>
        (k, match lookupVal k l with
            | some w => if isPlainObj w then sortObjectKeysF fuel w else w
            | none => .null)))
    else v

/-- `sortObjectKeys` with enough fuel. -/
def sortObjectKeys (v : JsonVal) : JsonVal := sortObjectKeysF (jsize v) v

/-- Fuel-driven `JSON.stringify` (no inserted whitespace): strings quoted and
escaped, integers in decimal, booleans and null literal, arrays and objects
comma-joined. -/
def stringifyF : Nat → JsonVal → List Char
  | 0, _ => []
  | fuel + 1, v =>
    match v with
    | .str s => quoteJson s
    | .num n => (toString n).data
    | .boolean b => if b then "true".data else "false".data
    | .null => "null".data
    | .arrNil => ['[', ']']
    | .arrCons h t =>
      '[' :: List.intercalate [','] ((h :: arrElems t).map (stringifyF fuel)) ++ [']']
    | .objNil => ['\x7b', '\x7d']
    | .objCons k w t =>
      '\x7b' :: List.intercalate [','] (((k, w) :: objFields t).map
        (fun p => quoteJson p.1 ++ ':' :: stringifyF fuel p.2)) ++ ['\x7d']

/-- `JSON.stringify` with enough fuel. -/
def stringifyVal (v : JsonVal) : String := String.mk (stringifyF (jsize v) v)

/-- `canonicalizeMetadata` from `src/unnamed/part_004`:
`JSON.stringify(sortObjectKeys(metadata))`, for a metadata record. -/
def canonicalizeMetadata (m : JsObj) : String := stringifyVal (sortObjectKeys (objOfList m))

/-! ## Key-order equivalence (used to settle the canonicalization claims) -/

/-- Fuel-driven "equal up to re-ordering of object fields at object nodes not
inside arrays": scalars and arrays must be syntactically equal, objects must
have the same duplicate-free key sets with pointwise related values. -/
def keyPermEqBF : Nat → JsonVal → JsonVal → Bool
  | 0, _, _ => false
  | fuel + 1, v, w =>
    if isPlainObj v && isPlainObj w then
      let l := objFields v
      let m := objFields w
      decide (l.map (·.1)).Nodup && decide (m.map (·.1)).Nodup &&
      (l.map (·.1)).all (fun k => (m.map (·.1)).contains k) &&
      (m.map (·.1)).all (fun k => (l.map (·.1)).contains k) &&
      (l.map (·.1)).all (fun k =>
        match lookupVal k l, lookupVal k m with
        | some a, some b => keyPermEqBF fuel a b
        | _, _ => false)
    else v == w

/-- "Equal up to object key order outside arrays" with enough fuel. -/
def KeyPermEq (v w : JsonVal) : Prop := keyPermEqBF (jsize v + jsize w) v w = true

/-! ## Identifier generation (`src/mjs/src/identifier.mjs`, `generateIdentifier`) -/

/-- `String.prototype.substring(indexStart, indexEnd)`: both indices are clamped
to `[0, length]` (negative values become `0`), then swapped if out of order. -/
def jsSubstring (s : String) (a b : Int) : String :=
  String.mk ((s.data.drop
      (min (max 0 (min a (s.data.length : Int))).toNat (max 0 (min b (s.data.length : Int))).toNat)).take
    ((max (max 0 (min a (s.data.length : Int))).toNat (max 0 (min b (s.data.length : Int))).toNat) -
      (min (max 0 (min a (s.data.length : Int))).toNat (max 0 (min b (s.data.length : Int))).toNat)))

/-- The options object of `generateIdentifier`, with the source's defaults.
`truncate` is `false` (`none`) or a number; `0` is falsy in the `truncate &&`
test, any other number (including negatives) is truthy. -/
structure GenOptions where
  algorithm : String := "sha256"
  encoding : String := "hex"
  truncate : Option Int := none
  includeMetadata : Bool := false

/-- The result object of `generateIdentifier`. -/
structure IdResult where
  identifier : String
  short : String
  algorithm : String
  metadata : Option JsObj
deriving DecidableEq

/-- `generateIdentifier` from `src/mjs/src/identifier.mjs`: validate options,
re-normalize, canonicalize, hash (abstracted into `env.cryptoHash`), take the
`short` prefix from the full digest, and truncate the identifier digest when the
`truncate` option is a truthy number. -/
def generateIdentifier (env : JsEnv) (meta : JsObj) (opts : GenOptions) : Except String IdResult :=
  if !(["sha256", "sha1"].contains opts.algorithm) then
    .error ("Invalid algorithm: " ++ opts.algorithm ++ ". Must be 'sha256' or 'sha1'")
  else if !(["hex", "base64"].contains opts.encoding) then
    .error ("Invalid encoding: " ++ opts.encoding ++ ". Must be 'hex' or 'base64'")
  else
    match normalizeMetadata env meta with
    | .error e => .error e
    | .ok normalized =>
      let canonical := canonicalizeMetadata normalized
      let hash := env.cryptoHash opts.algorithm opts.encoding canonical
      let fullIdentifier := opts.algorithm ++ ":" ++ hash
      let short := jsSubstring hash 0 8
      let identifier :=
        match opts.truncate with
        | some t => if t != 0 then opts.algorithm ++ ":" ++ jsSubstring hash 0 t else fullIdentifier
        | none => fullIdentifier
      .ok { identifier := identifier, short := short, algorithm := opts.algorithm,
            metadata := if opts.includeMetadata then some normalized else none }

/-! ## Change detection (`src/mjs/src/change-detection.mjs`) -/

/-- One element of the `current` array consumed by `generateChangeReport` (the
shape produced by the batch orchestrator). -/
structure BatchResult where
  filePath : String
  identifier : Option String
  status : String
  error : Option String
deriving DecidableEq

/-- The report produced by `generateChangeReport`. -/
structure ChangeReport where
  added : List String
  modified : List String
  unchanged : List String
  removed : List String
  errors : List (String × Option String)
deriving DecidableEq

/-- Own-entry lookup in the manifest's own properties (insertion order). -/
def lookupStr (k : String) : List (String × String) → Option String
  | [] => none
  | (k', v) :: t => if k' == k then some v else lookupStr k t

/-- The own-property names of `Object.prototype` in a standard JS realm.  The
manifest is a plain object (an object literal or `JSON.parse` output), so a
property read at any of these keys that is not an own entry yields the
inherited `Object.prototype` member — a function, or `Object.prototype` itself
for `__proto__` — which is truthy and is never strictly equal to a string. -/
def objectProtoKeys : List String :=
  ["constructor", "__defineGetter__", "__defineSetter__", "hasOwnProperty",
   "__lookupGetter__", "__lookupSetter__", "isPrototypeOf",
   "propertyIsEnumerable", "toString", "valueOf", "__proto__",
   "toLocaleString"]

/-- What the property read `previous[p]` can produce when it is not
`undefined`: an own identifier string, or a value inherited from
`Object.prototype`. -/
inductive ManifestProp where
  | own (v : String)
  | inherited
deriving DecidableEq

/-- The JS property read `previous[p]` on the manifest object: the stored
string for an own entry; the inherited `Object.prototype` member when `p` is
absent from the own entries but names one; otherwise `undefined` (`none`). -/
def jsGet (previous : List (String × String)) (p : String) : Option ManifestProp :=
  match lookupStr p previous with
  | some v => some (.own v)
  | none => if objectProtoKeys.contains p then some .inherited else none

/-- The per-result loop of `generateChangeReport`: skip results with a falsy
`filePath`, record the path as seen, route error-status results to `errors`, and
classify the rest by the property read `previousId = previous[result.filePath]`
(which consults the prototype chain, `jsGet`): added when `previousId` is falsy
(`undefined`, or an own empty string), otherwise modified when
`result.identifier !== previousId` and unchanged when they are strictly equal.
An inherited `Object.prototype` member is truthy and is never strictly equal to
the string (or `undefined`) `result.identifier`, so it lands in modified.
Returns the partial report and the `seenFiles` set. -/
def processResults (previous : List (String × String)) :
    List BatchResult → ChangeReport → List String → ChangeReport × List String
  | [], rep, seen => (rep, seen)
  | r :: rest, rep, seen =>
    if r.filePath == "" then processResults previous rest rep seen
    else
      let seen' := seen ++ [r.filePath]
      if r.status == "error" then
        processResults previous rest
          { rep with errors := rep.errors ++ [(r.filePath, r.error)] } seen'
      else
        match jsGet previous r.filePath with
        | none => processResults previous rest { rep with added := rep.added ++ [r.filePath] } seen'
        | some .inherited =>
          processResults previous rest { rep with modified := rep.modified ++ [r.filePath] } seen'
        | some (.own pid) =>
          if pid == "" then
            processResults previous rest { rep with added := rep.added ++ [r.filePath] } seen'
          else if r.identifier != some pid then
            processResults previous rest { rep with modified := rep.modified ++ [r.filePath] } seen'
          else
            processResults previous rest { rep with unchanged := rep.unchanged ++ [r.filePath] } seen'

/-- `generateChangeReport` from `src/mjs/src/change-detection.mjs`: classify the
current results, then mark every manifest key not seen among them as removed. -/
def generateChangeReport (current : List BatchResult) (previous : List (String × String)) :
    ChangeReport :=
  let (rep, seen) := processResults previous current ⟨[], [], [], [], []⟩ []
  { rep with removed := (previous.map (·.1)).filter (fun k => !(seen.contains k)) }

/-! ## Manifest persistence (`src/mjs/src/change-detection.mjs`, `saveManifest`
and `loadManifest`)

A manifest is a flat JS object mapping file paths to identifier strings, modelled
as an insertion-ordered association list.  `saveManifest` is `JSON.stringify`
(optionally with 2-space indentation); `loadManifest` is `JSON.parse`, modelled
on the manifest grammar (a flat object of string values) that `saveManifest`
produces. -/

/-- The entry list of `JSON.stringify(manifest)` (compact form), closing brace
included. -/
def manifestCompactBody : List (String × String) → List Char
  | [] => ['\x7d']
  | (k, v) :: rest =>
    quoteJson k ++ ':' :: quoteJson v ++
      (match rest with
       | [] => ['\x7d']
       | _ => ',' :: manifestCompactBody rest)

/-- The entry list of `JSON.stringify(manifest, null, 2)` (pretty form), closing
brace included. -/
def manifestPrettyBody : List (String × String) → List Char
  | [] => ['\x7d']
  | (k, v) :: rest =>
    ' ' :: ' ' :: quoteJson k ++ ':' :: ' ' :: quoteJson v ++
      (match rest with
       | [] => '\n' :: ['\x7d']
       | _ => ',' :: '\n' :: manifestPrettyBody rest)

/-- `saveManifest` from `src/mjs/src/change-detection.mjs`:
`JSON.stringify(manifest, null, 2)` when `pretty`, `JSON.stringify(manifest)`
otherwise. -/
def saveManifest (manifest : List (String × String)) (pretty : Bool) : String :=
  if pretty then
    match manifest with
    | [] => String.mk ['\x7b', '\x7d']
    | _ => String.mk ('\x7b' :: '\n' :: manifestPrettyBody manifest)
  else String.mk ('\x7b' :: manifestCompactBody manifest)

/-- JSON whitespace. -/
def isJsonWs (c : Char) : Bool :=
  c == ' ' || c == '\n' || c == '\t' || c == '\r'

/-- Skip JSON whitespace. -/
def skipWs (l : List Char) : List Char := l.dropWhile isJsonWs

/-- Numeric value of a hex digit. -/
def hexVal (c : Char) : Option Nat :=
  if 48 ≤ c.toNat && c.toNat ≤ 57 then some (c.toNat - 48)
  else if 97 ≤ c.toNat && c.toNat ≤ 102 then some (c.toNat - 87)
  else if 65 ≤ c.toNat && c.toNat ≤ 70 then some (c.toNat - 55)
  else none

/-- Decoding of a single-character JSON escape (`\"`, `\\`, `\/`, `\b`, `\f`,
`\n`, `\r`, `\t`); anything else is invalid. -/
def escDecode (e : Char) : Option Char :=
  if e = '"' then some '"'
  else if e = '\\' then some '\\'
  else if e = '/' then some '/'
  else if e = 'b' then some (Char.ofNat 8)
  else if e = 'f' then some (Char.ofNat 12)
  else if e = 'n' then some '\n'
  else if e = 'r' then some (Char.ofNat 13)
  else if e = 't' then some (Char.ofNat 9)
  else none

/-- The body of a JSON string literal (after the opening quote): literal
characters until the closing quote, with the standard escapes and `\uXXXX`; an
invalid or truncated escape is a parse error. -/
def parseStrBody : List Char → Option (List Char × List Char)
  | [] => none
  | c :: rest =>
    if c = '"' then some ([], rest)
    else if c = '\\' then
      match rest with
      | [] => none
      | e :: rest2 =>
        if e = 'u' then
          match rest2 with
          | h1 :: h2 :: h3 :: h4 :: rest3 =>
            match hexVal h1, hexVal h2, hexVal h3, hexVal h4 with
            | some a, some b, some cc, some d =>
              (parseStrBody rest3).map
                (fun p => (Char.ofNat (((a * 16 + b) * 16 + cc) * 16 + d) :: p.1, p.2))
            | _, _, _, _ => none
          | _ => none
        else
          match escDecode e with
          | some d => (parseStrBody rest2).map (fun p => (d :: p.1, p.2))
          | none => none
    else (parseStrBody rest).map (fun p => (c :: p.1, p.2))

/-- A JSON string literal. -/
def parseStrLit : List Char → Option (String × List Char)
  | '"' :: rest => (parseStrBody rest).map (fun p => (String.mk p.1, p.2))
  | _ => none

/-- The entries of a flat JSON object of string values, consuming the closing
brace; fuel-driven (one unit per entry). -/
def parseEntries : Nat → List Char → Option (List (String × String) × List Char)
  | 0, _ => none
  | fuel + 1, l =>
    match parseStrLit (skipWs l) with
    | none => none
    | some (k, l1) =>
      match skipWs l1 with
      | [] => none
      | c1 :: l2 =>
        if c1 = ':' then
          match parseStrLit (skipWs l2) with
          | none => none
          | some (v, l3) =>
            match skipWs l3 with
            | [] => none
            | c2 :: l4 =>
              if c2 = ',' then
                match parseEntries fuel l4 with
                | some (rest, l5) => some ((k, v) :: rest, l5)
                | none => none
              else if c2 = '\x7d' then some ([(k, v)], l4)
              else none
        else none

/-- `loadManifest` from `src/mjs/src/change-detection.mjs`: `JSON.parse`,
restricted to the flat string-valued-object grammar that manifests use; anything
else is the `Failed to parse manifest JSON` error. -/
def loadManifest (s : String) : Except String (List (String × String)) :=
  match skipWs s.data with
  | [] => .error "Failed to parse manifest JSON"
  | c0 :: r =>
    if c0 = '\x7b' then
      match skipWs r with
      | [] => .error "Failed to parse manifest JSON"
      | c :: tail =>
        if c = '\x7d' then
          if (skipWs tail).isEmpty then .ok [] else .error "Failed to parse manifest JSON"
        else
          match parseEntries (r.length + 1) r with
          | some (m, tail2) =>
            if (skipWs tail2).isEmpty then .ok m else .error "Failed to parse manifest JSON"
          | none => .error "Failed to parse manifest JSON"
    else .error "Failed to parse manifest JSON"

/-! ## Batch orchestrator (`src/mjs/src/utils/git.mjs`, `generateBatchIdentifiers`)

The loop at lines 276-304 is embedded over an explicit scheduler for the
single-threaded JS event loop.  Each input `i` is given an adapter latency
`lats[i] ≥ 1`; `processOne(inputs[i])` starts its adapter call the moment the
loop creates the promise, and the promise settles at `start + latency` (with
`continueOnError` left at its default `true`, `processOne` never rejects).  Time
advances only while the loop is suspended in `await Promise.race(processing)`;
the race resolves immediately with the first already-settled promise in array
order, or else with the promise with the earliest settle time.

Crucially, the clean-up after a race is
`processing.splice(processing.indexOf(settled), 1)` where `settled` is the
race's resolution *value*, a plain result object that is never `===` to any
`Promise` in `processing`; `indexOf` therefore returns `-1` and — because the
code guards the splice with `index > -1` — nothing is ever removed from
`processing`.  The final `Promise.allSettled(processing)` therefore re-collects
every item, in array order. -/

/-- Scheduler state for the batch loop: current time, the `processing` array as
`(input index, settle time)` pairs, the `results` array as input indices (the
per-item result objects are determined by the index), and the high-water mark of
simultaneously active adapter calls. -/
structure BatchSimState where
  now : Nat
  processing : List (Nat × Nat)
  results : List Nat
  maxActive : Nat
deriving DecidableEq

/-- The first settled promise in array order, if any (`Promise.race` on an array
containing an already-settled promise). -/
def firstSettled (now : Nat) (p : List (Nat × Nat)) : Option (Nat × Nat) :=
  p.find? (fun q => q.2 ≤ now)

/-- The earliest settle time in the `processing` array. -/
def minSettle : List (Nat × Nat) → Nat
  | [] => 0
  | q :: t => t.foldl (fun a r => min a r.2) q.2

/-- `await Promise.race(processing)` followed by `results.push(settled)` and the
no-op splice (`processing.indexOf(settled)` is `-1`, see the section comment). -/
def raceStep (st : BatchSimState) : BatchSimState :=
  match firstSettled st.now st.processing with
  | some q => { st with results := st.results ++ [q.1] }
  | none =>
    let m := minSettle st.processing
    match st.processing.find? (fun q => q.2 == m) with
    | some q => { st with now := m, results := st.results ++ [q.1] }
    | none => st

/-- `const promise = processOne(inputs[i]); processing.push(promise)`: the
adapter call becomes active immediately; record the number of simultaneously
active calls. -/
def startItem (i lat : Nat) (st : BatchSimState) : BatchSimState :=
  let settle := st.now + lat
  let processing := st.processing ++ [(i, settle)]
  let active := (processing.filter (fun q => st.now < q.2)).length
  { st with processing := processing, maxActive := max st.maxActive active }

/-- The `for (let i = 0; i < inputs.length; i++)` loop: start item `i`, then
race once when `processing.length >= concurrency`. -/
def batchLoop (c : Nat) : Nat → List Nat → BatchSimState → BatchSimState
  | _, [], st => st
  | i, lat :: rest, st =>
    let st1 := startItem i lat st
    let st2 := if c ≤ st1.processing.length then raceStep st1 else st1
    batchLoop c (i + 1) rest st2

/-- `generateBatchIdentifiers` under the scheduler model: run the loop, then
`await Promise.allSettled(processing)` appends the value of every promise still
in the (never-spliced) array, in array order. -/
def batchSim (lats : List Nat) (c : Nat) : BatchSimState :=
  let st := batchLoop c 0 lats ⟨0, [], [], 0⟩
  { st with results := st.results ++ st.processing.map (·.1) }

/-! ## Decidable equality of pipeline results -/

instance {ε α : Type} [DecidableEq ε] [DecidableEq α] : DecidableEq (Except ε α) := fun a b =>
  match a, b with
  | .ok x, .ok y =>
    if h : x = y then isTrue (by rw [h]) else isFalse (fun c => h (Except.ok.inj c))
  | .error e, .error f =>
    if h : e = f then isTrue (by rw [h]) else isFalse (fun c => h (Except.error.inj c))
  | .ok _, .error _ => isFalse (fun c => Except.noConfusion c)
  | .error _, .ok _ => isFalse (fun c => Except.noConfusion c)

/-! ## Concrete records used by witnesses and counterexamples -/

/-- A concrete runtime environment: a constant 64-character digest (the length of
a hex-encoded SHA-256) and a date normalizer that is the identity on strings —
enough to satisfy every hypothesis the theorems place on `JsEnv`. -/
def envW : JsEnv where
  cryptoHash := fun _ _ _ => "0123456789abcdef0123456789abcdef0123456789abcdef0123456789abcdef"
  dateNorm := fun v => match v with | .str s => some s | _ => none

/-- A valid 40-hex Git hash. -/
def hashW : String := "abcdef0123456789abcdef0123456789abcdef01"

/-- The same hash with an upper-case prefix. -/
def hashWUpper : String := "ABCDEF0123456789abcdef0123456789abcdef01"

/-- Raw metadata: upper-case commit hash, Windows path separator, one key order. -/
def rawW1 : JsObj :=
  [("source", .str "github"), ("owner", .str "octo"), ("repo", .str "r"),
   ("branch", .str "main"), ("commitHash", .str hashWUpper),
   ("filePath", .str "src\\a.js"), ("fileHash", .str hashW)]

/-- The same record after normalization, with another key insertion order,
lower-case hash and POSIX separator. -/
def rawW2 : JsObj :=
  [("owner", .str "octo"), ("source", .str "github"), ("filePath", .str "src/a.js"),
   ("repo", .str "r"), ("branch", .str "main"), ("commitHash", .str hashW),
   ("fileHash", .str hashW)]

/-- The common normalized form of `rawW1` and `rawW2`. -/
def normW : JsObj :=
  [("branch", .str "main"), ("commitHash", .str hashW), ("fileHash", .str hashW),
   ("filePath", .str "src/a.js"), ("owner", .str "octo"), ("repo", .str "r"),
   ("source", .str "github")]

/-- Raw metadata whose `filePath` is `"././x"`: one normalization pass leaves
`"./x"`. -/
def rawC6 : JsObj :=
  [("source", .str "github"), ("owner", .str "octo"), ("repo", .str "r"),
   ("branch", .str "main"), ("commitHash", .str hashW),
   ("filePath", .str "././x"), ("fileHash", .str hashW)]

/-- `normalizeMetadata` of `rawC6`: the `filePath` is still not a fixed point. -/
def normC6 : JsObj :=
  [("branch", .str "main"), ("commitHash", .str hashW), ("fileHash", .str hashW),
   ("filePath", .str "./x"), ("owner", .str "octo"), ("repo", .str "r"),
   ("source", .str "github")]

/-- Raw metadata in which both `source` and `owner` are the empty string. -/
def rawC9 : JsObj :=
  [("source", .str ""), ("owner", .str ""), ("repo", .str "r"), ("branch", .str "b"),
   ("commitHash", .str hashW), ("filePath", .str "f"), ("fileHash", .str hashW)]

/-- Raw metadata in which exactly `owner` is falsy. -/
def rawC9b : JsObj :=
  [("source", .str "github"), ("owner", .str ""), ("repo", .str "r"), ("branch", .str "b"),
   ("commitHash", .str hashW), ("filePath", .str "f"), ("fileHash", .str hashW)]

/-- An object nested inside an array, keys in the order `b`, `a`. -/
def innerBA : JsonVal := .objCons "b" (.num 1) (.objCons "a" (.num 2) .objNil)

/-- The same object with keys in the order `a`, `b`. -/
def innerAB : JsonVal := .objCons "a" (.num 2) (.objCons "b" (.num 1) .objNil)

/-- A record carrying `innerBA` inside an array. -/
def arrObjBA : JsObj := [("k", .arrCons innerBA .arrNil)]

/-- The same record except for the key order of the array-nested object. -/
def arrObjAB : JsObj := [("k", .arrCons innerAB .arrNil)]

/-- A record with a nested object (at an object-valued field) and a second key. -/
def nestW1 : JsObj := [("outer", innerBA), ("x", .str "s")]

/-- The same record up to key re-ordering at both object depths. -/
def nestW2 : JsObj := [("x", .str "s"), ("outer", innerAB)]

/-- The current results of the spec's diff example. -/
def curW : List BatchResult :=
  [⟨"a", some "sha256:1", "success", none⟩, ⟨"c", some "sha256:3", "success", none⟩]

/-- The previous manifest of the spec's diff example. -/
def prevW : List (String × String) := [("a", "sha256:1"), ("b", "sha256:2")]

/-- The spec's diff example extended with a successful result whose path names
an `Object.prototype` member (`toString`) absent from the manifest. -/
def curW7 : List BatchResult :=
  [⟨"a", some "sha256:1", "success", none⟩, ⟨"c", some "sha256:3", "success", none⟩,
   ⟨"toString", some "sha256:9", "success", none⟩]

/-- A single successful result at the path `toString`, used against an empty
manifest. -/
def curProto : List BatchResult := [⟨"toString", some "sha256:9", "success", none⟩]

instance (v w : JsonVal) : Decidable (KeyPermEq v w) :=
  inferInstanceAs (Decidable (keyPermEqBF (jsize v + jsize w) v w = true))

/-! # Theorems -/

/-! ## C1 and C2: the batch orchestrator (code bugs)

`generateBatchIdentifiers` never removes settled promises from `processing`
(`processing.indexOf(settled)` compares the resolution value against promises
and returns `-1`), so each `Promise.race` pushes the value of an
already-settled promise again, and the final `Promise.allSettled(processing)`
re-collects all items.  Moreover, once one promise has settled, every later
`await Promise.race(processing)` resolves immediately, so the loop stops
waiting and admits all remaining items at once. -/

/-- C1: with 2 inputs, `continueOnError: true` and `concurrency: 1`, the batch
returns 4 results — item 0 appears three times — instead of one result per
input.  This refutes "the result array has length exactly N with no item
duplicated or dropped". -/
theorem claim1_batch_length_bug :
    (batchSim [1, 1] 1).results = [0, 0, 0, 1] ∧
    (batchSim [1, 1] 1).results.length = 4 ∧
    (batchSim [1, 1] 1).results.count 0 = 3 := by
  refine ⟨by decide, by decide, by decide⟩

/-- C2: with 4 inputs of latencies `[1, 10, 10, 10]` and `concurrency: 2`,
three adapter calls are active simultaneously: after item 0 settles, the races
resolve immediately with item 0's value, so items 2 and 3 are started while
item 1 is still in flight.  This refutes the `concurrency` bound. -/
theorem claim2_concurrency_bug :
    (batchSim [1, 10, 10, 10] 2).maxActive = 3 ∧ 2 < (batchSim [1, 10, 10, 10] 2).maxActive := by
  refine ⟨by decide, by decide⟩

/-! ## C9: required fields that are present but falsy -/

/-- `find?` returns the first element satisfying the test: if `p f` holds and
`p` fails on everything before the first occurrence of `f`, the search stops at
`f`. -/
theorem find?_of_first {α : Type} [DecidableEq α] (p : α → Bool) :
    ∀ (l : List α) (f : α), f ∈ l → p f = true →
      (∀ g ∈ l.takeWhile (fun x => !(x == f)), p g = false) → l.find? p = some f := by
  intro l
  induction l with
  | nil => intro f hf; exact absurd hf (List.not_mem_nil f)
  | cons a t ih =>
    intro f hf hp hbefore
    by_cases haf : a = f
    · subst haf
      simp [List.find?, hp]
    · have ha : (!(a == f)) = true := by simp [haf]
      have htake : (a :: t).takeWhile (fun x => !(x == f)) =
          a :: t.takeWhile (fun x => !(x == f)) := by
        simp [List.takeWhile, ha]
      have hpa : p a = false := by
        apply hbefore
        rw [htake]; exact List.mem_cons_self a _
      have hft : f ∈ t := by
        cases List.mem_cons.mp hf with
        | inl h => exact absurd h.symm haf
        | inr h => exact h
      have hrest : ∀ g ∈ t.takeWhile (fun x => !(x == f)), p g = false := by
        intro g hg
        apply hbefore
        rw [htake]; exact List.mem_cons_of_mem a hg
      simp [List.find?, hpa]
      exact ih f hft hp hrest

/-- C9 (amended): a present-but-falsy required field is rejected exactly like a
missing one, and the error names the first missing-or-falsy field in the check
order `source, owner, repo, branch, commitHash, filePath, fileHash`; so when
every earlier required field is truthy, the error names the falsy field itself. -/
theorem claim9_falsy_required_field (env : JsEnv) (raw : JsObj) (f : String) (v : JsonVal)
    (hmem : f ∈ requiredFields)
    (hlook : lookupVal f raw = some v) (hfalsy : isFalsy v = true)
    (hbefore : ∀ g ∈ requiredFields.takeWhile (fun x => !(x == f)),
      isFalsyOpt (lookupVal g raw) = false) :
    normalizeMetadata env raw = .error ("Missing required field: " ++ f) := by
  have hreq : reqCheck raw = some f := by
    apply find?_of_first
    · exact hmem
    · rw [hlook]; exact hfalsy
    · exact hbefore
  unfold normalizeMetadata
  rw [hreq]

/-- C9 witness: on a record whose `owner` is `""` and whose earlier required
field `source` is truthy, normalization fails naming `owner`. -/
theorem claim9_falsy_required_field_witness :
    normalizeMetadata envW rawC9b = .error ("Missing required field: " ++ "owner") :=
  claim9_falsy_required_field envW rawC9b "owner" (.str "") (by decide) (by decide) (by decide)
    (by decide)

/-- C9 counterexample: when both `source` and `owner` are the empty string, the
error names `source`, not `owner` — so the claim "it throws an error naming that
field", instantiated at the falsy field `owner`, is false. -/
theorem claim9_counterexample :
    lookupVal "owner" rawC9 = some (.str "") ∧ isFalsy (.str "") = true ∧
    normalizeMetadata envW rawC9 = .error "Missing required field: source" ∧
    normalizeMetadata envW rawC9 ≠ .error "Missing required field: owner" := by
  refine ⟨by decide, by decide, by decide, by decide⟩

/-! ## Shape of normalized records -/

theorem lookup_build_branch (br : JsonVal) (ch fh fp : String) (lm : Option JsonVal)
    (ow rp sr : JsonVal) (hu rpv : Option JsonVal) :
    lookupVal "branch" (buildNormalized br ch fh fp lm ow rp sr hu rpv) = some br := by
  cases lm <;> cases hu <;> cases rpv <;> rfl

theorem lookup_build_commitHash (br : JsonVal) (ch fh fp : String) (lm : Option JsonVal)
    (ow rp sr : JsonVal) (hu rpv : Option JsonVal) :
    lookupVal "commitHash" (buildNormalized br ch fh fp lm ow rp sr hu rpv) = some (.str ch) := by
  cases lm <;> cases hu <;> cases rpv <;> rfl

theorem lookup_build_fileHash (br : JsonVal) (ch fh fp : String) (lm : Option JsonVal)
    (ow rp sr : JsonVal) (hu rpv : Option JsonVal) :
    lookupVal "fileHash" (buildNormalized br ch fh fp lm ow rp sr hu rpv) = some (.str fh) := by
  cases lm <;> cases hu <;> cases rpv <;> rfl

theorem lookup_build_filePath (br : JsonVal) (ch fh fp : String) (lm : Option JsonVal)
    (ow rp sr : JsonVal) (hu rpv : Option JsonVal) :
    lookupVal "filePath" (buildNormalized br ch fh fp lm ow rp sr hu rpv) = some (.str fp) := by
  cases lm <;> cases hu <;> cases rpv <;> rfl

theorem lookup_build_lastModified (br : JsonVal) (ch fh fp : String) (lm : Option JsonVal)
    (ow rp sr : JsonVal) (hu rpv : Option JsonVal) :
    lookupVal "lastModified" (buildNormalized br ch fh fp lm ow rp sr hu rpv) = lm := by
  cases lm <;> cases hu <;> cases rpv <;> rfl

theorem lookup_build_owner (br : JsonVal) (ch fh fp : String) (lm : Option JsonVal)
    (ow rp sr : JsonVal) (hu rpv : Option JsonVal) :
    lookupVal "owner" (buildNormalized br ch fh fp lm ow rp sr hu rpv) = some ow := by
  cases lm <;> cases hu <;> cases rpv <;> rfl

theorem lookup_build_repo (br : JsonVal) (ch fh fp : String) (lm : Option JsonVal)
    (ow rp sr : JsonVal) (hu rpv : Option JsonVal) :
    lookupVal "repo" (buildNormalized br ch fh fp lm ow rp sr hu rpv) = some rp := by
  cases lm <;> cases hu <;> cases rpv <;> rfl

theorem lookup_build_source (br : JsonVal) (ch fh fp : String) (lm : Option JsonVal)
    (ow rp sr : JsonVal) (hu rpv : Option JsonVal) :
    lookupVal "source" (buildNormalized br ch fh fp lm ow rp sr hu rpv) = some sr := by
  cases lm <;> cases hu <;> cases rpv <;> rfl

theorem lookup_build_htmlUrl (br : JsonVal) (ch fh fp : String) (lm : Option JsonVal)
    (ow rp sr : JsonVal) (hu rpv : Option JsonVal) :
    lookupVal "htmlUrl" (buildNormalized br ch fh fp lm ow rp sr hu rpv) = hu := by
  cases lm <;> cases hu <;> cases rpv <;> rfl

theorem lookup_build_repoPath (br : JsonVal) (ch fh fp : String) (lm : Option JsonVal)
    (ow rp sr : JsonVal) (hu rpv : Option JsonVal) :
    lookupVal "repoPath" (buildNormalized br ch fh fp lm ow rp sr hu rpv) = rpv := by
  cases lm <;> cases hu <;> cases rpv <;> rfl

/-- Inversion of a successful `normalizeMetadata` run: every validation passed
and the output is the canonical build of the extracted components. -/
theorem normalizeMetadata_ok_elim (env : JsEnv) (raw n : JsObj)
    (h : normalizeMetadata env raw = .ok n) :
    reqCheck raw = none ∧
    ∃ ch fh fp lm,
      getHashStr (lookupVal "commitHash" raw) "commitHash" = .ok ch ∧
      getHashStr (lookupVal "fileHash" raw) "fileHash" = .ok fh ∧
      normPathE (lookupVal "filePath" raw) = .ok fp ∧
      lastModE env (lookupVal "lastModified" raw) = .ok lm ∧
      n = buildNormalized (getVal (lookupVal "branch" raw)) (strLower ch) (strLower fh) fp lm
            (getVal (lookupVal "owner" raw)) (getVal (lookupVal "repo" raw))
            (getVal (lookupVal "source" raw)) (optField (lookupVal "htmlUrl" raw))
            (optField (lookupVal "repoPath" raw)) := by
  unfold normalizeMetadata at h
  cases hq : reqCheck raw with
  | some f => rw [hq] at h; exact absurd h (by simp)
  | none =>
    rw [hq] at h
    cases hch : getHashStr (lookupVal "commitHash" raw) "commitHash" with
    | error e => rw [hch] at h; exact absurd h (by simp)
    | ok ch =>
      rw [hch] at h
      cases hfh : getHashStr (lookupVal "fileHash" raw) "fileHash" with
      | error e => rw [hfh] at h; exact absurd h (by simp)
      | ok fh =>
        rw [hfh] at h
        cases hfp : normPathE (lookupVal "filePath" raw) with
        | error e => rw [hfp] at h; exact absurd h (by simp)
        | ok fp =>
          rw [hfp] at h
          cases hlm : lastModE env (lookupVal "lastModified" raw) with
          | error e => rw [hlm] at h; exact absurd h (by simp)
          | ok lm =>
            rw [hlm] at h
            exact ⟨rfl, ch, fh, fp, lm, rfl, rfl, rfl, rfl, (Except.ok.inj h).symm⟩

/-! ## C3: determinism of canonicalization over normalization -/

/-- C3: whenever two raw records normalize successfully to field-wise equal
records (the same property lookup for every key — independent of raw key
insertion order, hash letter case, or path-separator convention, all of which
normalization has already erased), their canonical serializations are equal as
strings and `generateIdentifier` returns identical results (in particular the
same `identifier` and `short`) for both records under any identical options. -/
theorem claim3_canonical_determinism (env : JsEnv) (a b na nb : JsObj)
    (ha : normalizeMetadata env a = .ok na) (hb : normalizeMetadata env b = .ok nb)
    (hfw : ∀ k, lookupVal k na = lookupVal k nb) :
    canonicalizeMetadata na = canonicalizeMetadata nb ∧
    ∀ opts : GenOptions, generateIdentifier env a opts = generateIdentifier env b opts := by
  obtain ⟨-, chA, fhA, fpA, lmA, -, -, -, -, hnA⟩ := normalizeMetadata_ok_elim env a na ha
  obtain ⟨-, chB, fhB, fpB, lmB, -, -, -, -, hnB⟩ := normalizeMetadata_ok_elim env b nb hb
  rw [hnA, hnB] at hfw
  have e1 := hfw "branch"
  rw [lookup_build_branch, lookup_build_branch] at e1
  have e2 := hfw "commitHash"
  rw [lookup_build_commitHash, lookup_build_commitHash] at e2
  have e3 := hfw "fileHash"
  rw [lookup_build_fileHash, lookup_build_fileHash] at e3
  have e4 := hfw "filePath"
  rw [lookup_build_filePath, lookup_build_filePath] at e4
  have e5 := hfw "lastModified"
  rw [lookup_build_lastModified, lookup_build_lastModified] at e5
  have e6 := hfw "owner"
  rw [lookup_build_owner, lookup_build_owner] at e6
  have e7 := hfw "repo"
  rw [lookup_build_repo, lookup_build_repo] at e7
  have e8 := hfw "source"
  rw [lookup_build_source, lookup_build_source] at e8
  have e9 := hfw "htmlUrl"
  rw [lookup_build_htmlUrl, lookup_build_htmlUrl] at e9
  have e10 := hfw "repoPath"
  rw [lookup_build_repoPath, lookup_build_repoPath] at e10
  have heq : na = nb := by
    rw [hnA, hnB, Option.some.inj e1, JsonVal.str.inj (Option.some.inj e2),
      JsonVal.str.inj (Option.some.inj e3), JsonVal.str.inj (Option.some.inj e4), e5,
      Option.some.inj e6, Option.some.inj e7, Option.some.inj e8, e9, e10]
  refine ⟨by rw [heq], ?_⟩
  intro opts
  simp only [generateIdentifier, ha, hb, heq]

/-- C3 witness: `rawW1` and `rawW2` differ in key insertion order, in hash
letter case and in path-separator convention, yet normalize to the same record,
canonicalize identically and receive the same identifier under the default
options. -/
theorem claim3_canonical_determinism_witness :
    canonicalizeMetadata normW = canonicalizeMetadata normW ∧
    generateIdentifier envW rawW1 ⟨"sha256", "hex", none, false⟩ =
      generateIdentifier envW rawW2 ⟨"sha256", "hex", none, false⟩ :=
  ⟨(claim3_canonical_determinism envW rawW1 rawW2 normW normW (by decide) (by decide)
      (fun _ => rfl)).1,
   (claim3_canonical_determinism envW rawW1 rawW2 normW normW (by decide) (by decide)
      (fun _ => rfl)).2 ⟨"sha256", "hex", none, false⟩⟩

/-! ## C5 and C10: truncation and the `short` field -/

theorem jsSubstring_zero_nat (s : String) (k : Nat) :
    jsSubstring s 0 (k : Int) = String.mk (s.data.take k) := by
  unfold jsSubstring
  have h0 : (max 0 (min (0 : Int) (s.data.length : Int))).toNat = 0 := by omega
  have hk : (max 0 (min (k : Int) (s.data.length : Int))).toNat = min k s.data.length := by omega
  rw [h0, hk]
  simp only [Nat.zero_min, Nat.min_zero, Nat.zero_max, Nat.max_zero, List.drop_zero,
    Nat.sub_zero]
  congr 1
  rw [List.take_eq_take]
  omega

theorem jsSubstring_zero_negative (s : String) (t : Int) (ht : t < 0) :
    jsSubstring s 0 t = "" := by
  unfold jsSubstring
  have h0 : (max 0 (min (0 : Int) (s.data.length : Int))).toNat = 0 := by omega
  have hneg : (max 0 (min t (s.data.length : Int))).toNat = 0 := by omega
  rw [h0, hneg]
  rfl

theorem length_jsSubstring_zero (s : String) (k : Nat) (h : k ≤ s.length) :
    (jsSubstring s 0 (k : Int)).length = k := by
  rw [jsSubstring_zero_nat]
  show (s.data.take k).length = k
  rw [List.length_take]
  have : s.length = s.data.length := rfl
  omega

theorem jsSubstring_append_drop (s : String) (k : Nat) :
    jsSubstring s 0 (k : Int) ++ String.mk (s.data.drop k) = s := by
  rw [jsSubstring_zero_nat]
  show String.mk (s.data.take k ++ s.data.drop k) = s
  rw [List.take_append_drop]

/-- C5: with `truncate: 8` (and otherwise valid options, on metadata that
normalizes, for a digest of at least 8 characters — every supported
algorithm/encoding yields at least 28), the identifier is
`<algorithm>:<first 8 digest characters>`, the `short` field is those same 8
characters of the full untruncated digest, its length is 8, and it is a prefix
of the full digest. -/
theorem claim5_truncation (env : JsEnv) (meta n : JsObj) (opts : GenOptions)
    (halg : opts.algorithm = "sha256" ∨ opts.algorithm = "sha1")
    (henc : opts.encoding = "hex" ∨ opts.encoding = "base64")
    (htr : opts.truncate = some 8)
    (hn : normalizeMetadata env meta = .ok n)
    (hlen : 8 ≤ (env.cryptoHash opts.algorithm opts.encoding (canonicalizeMetadata n)).length) :
    generateIdentifier env meta opts =
      .ok ⟨opts.algorithm ++ ":" ++
             jsSubstring (env.cryptoHash opts.algorithm opts.encoding (canonicalizeMetadata n)) 0 8,
           jsSubstring (env.cryptoHash opts.algorithm opts.encoding (canonicalizeMetadata n)) 0 8,
           opts.algorithm, if opts.includeMetadata then some n else none⟩ ∧
    (jsSubstring (env.cryptoHash opts.algorithm opts.encoding (canonicalizeMetadata n)) 0 8).length
      = 8 ∧
    jsSubstring (env.cryptoHash opts.algorithm opts.encoding (canonicalizeMetadata n)) 0 8 ++
        String.mk ((env.cryptoHash opts.algorithm opts.encoding (canonicalizeMetadata n)).data.drop 8)
      = env.cryptoHash opts.algorithm opts.encoding (canonicalizeMetadata n) := by
  have hc1 : (["sha256", "sha1"].contains opts.algorithm) = true := by
    rcases halg with h | h <;> simp [h]
  have hc2 : (["hex", "base64"].contains opts.encoding) = true := by
    rcases henc with h | h <;> simp [h]
  refine ⟨?_, ?_, ?_⟩
  · simp only [generateIdentifier, hc1, hc2, Bool.not_true, Bool.false_eq_true, if_false, hn, htr]
    norm_num
  · have h8 : ((8 : Nat) : Int) = (8 : Int) := by norm_num
    rw [← h8, length_jsSubstring_zero _ 8 hlen]
  · have h8 : ((8 : Nat) : Int) = (8 : Int) := by norm_num
    rw [← h8, jsSubstring_append_drop]

/-- C5 witness: truncating to 8 under `envW` yields `sha256:01234567` with
`short = "01234567"`, length 8, a prefix of the 64-character digest. -/
theorem claim5_truncation_witness :
    generateIdentifier envW rawW1 ⟨"sha256", "hex", some 8, false⟩ =
      .ok ⟨"sha256:01234567", "01234567", "sha256", none⟩ ∧
    ("01234567" : String).length = 8 := by
  obtain ⟨h1, h2, -⟩ := claim5_truncation envW rawW1 normW ⟨"sha256", "hex", some 8, false⟩
    (Or.inl rfl) (Or.inl rfl) rfl (by decide) (by decide)
  refine ⟨?_, by decide⟩
  rw [h1]; decide

/-- C10: when `truncate` is a negative number (and the options are otherwise
valid, on metadata that normalizes, with a digest of at least 8 characters),
`generateIdentifier` does not throw: `truncate && typeof truncate === 'number'`
is truthy, and `hash.substring(0, truncate)` clamps the negative end index to
`0`, so the identifier is `<algorithm>:` with an empty digest portion, while
`short` is still the first 8 characters of the full digest. -/
theorem claim10_negative_truncate (env : JsEnv) (meta n : JsObj) (opts : GenOptions) (t : Int)
    (halg : opts.algorithm = "sha256" ∨ opts.algorithm = "sha1")
    (henc : opts.encoding = "hex" ∨ opts.encoding = "base64")
    (htr : opts.truncate = some t) (ht : t < 0)
    (hn : normalizeMetadata env meta = .ok n)
    (hlen : 8 ≤ (env.cryptoHash opts.algorithm opts.encoding (canonicalizeMetadata n)).length) :
    generateIdentifier env meta opts =
      .ok ⟨opts.algorithm ++ ":",
           jsSubstring (env.cryptoHash opts.algorithm opts.encoding (canonicalizeMetadata n)) 0 8,
           opts.algorithm, if opts.includeMetadata then some n else none⟩ ∧
    (jsSubstring (env.cryptoHash opts.algorithm opts.encoding (canonicalizeMetadata n)) 0 8).length
      = 8 ∧
    jsSubstring (env.cryptoHash opts.algorithm opts.encoding (canonicalizeMetadata n)) 0 8 ++
        String.mk ((env.cryptoHash opts.algorithm opts.encoding (canonicalizeMetadata n)).data.drop 8)
      = env.cryptoHash opts.algorithm opts.encoding (canonicalizeMetadata n) := by
  have hc1 : (["sha256", "sha1"].contains opts.algorithm) = true := by
    rcases halg with h | h <;> simp [h]
  have hc2 : (["hex", "base64"].contains opts.encoding) = true := by
    rcases henc with h | h <;> simp [h]
  have htne : (t != 0) = true := by
    have : t ≠ 0 := by omega
    simpa using this
  refine ⟨?_, ?_, ?_⟩
  · simp only [generateIdentifier, hc1, hc2, Bool.not_true, Bool.false_eq_true, if_false, hn, htr,
      htne, if_true, jsSubstring_zero_negative _ t ht]
    rw [String.append_empty]
  · have h8 : ((8 : Nat) : Int) = (8 : Int) := by norm_num
    rw [← h8, length_jsSubstring_zero _ 8 hlen]
  · have h8 : ((8 : Nat) : Int) = (8 : Int) := by norm_num
    rw [← h8, jsSubstring_append_drop]

/-- C10 witness: `truncate: -3` yields `sha256:` with an empty digest portion
and an 8-character `short` taken from the full digest. -/
theorem claim10_negative_truncate_witness :
    generateIdentifier envW rawW1 ⟨"sha256", "hex", some (-3), false⟩ =
      .ok ⟨"sha256:", "01234567", "sha256", none⟩ ∧
    ("01234567" : String).length = 8 := by
  obtain ⟨h1, h2, -⟩ := claim10_negative_truncate envW rawW1 normW
    ⟨"sha256", "hex", some (-3), false⟩ (-3) (Or.inl rfl) (Or.inl rfl) rfl (by decide)
    (by decide) (by decide)
  refine ⟨?_, by decide⟩
  rw [h1]; decide

/-! ## C7: the change report partition -/

theorem lookupStr_mem_val (k : String) :
    ∀ (l : List (String × String)) (v : String), lookupStr k l = some v → v ∈ l.map (·.2) := by
  intro l
  induction l with
  | nil => intro v h; exact absurd h (by simp [lookupStr])
  | cons p t ih =>
    intro v h
    rw [lookupStr] at h
    by_cases hk : (p.1 == k) = true
    · rw [if_pos hk] at h
      simp [Option.some.inj h]
    · rw [if_neg hk] at h
      simpa using Or.inr (by simpa using ih v h)

theorem jsGet_own (previous : List (String × String)) (p v : String)
    (h : jsGet previous p = some (.own v)) : lookupStr p previous = some v := by
  unfold jsGet at h
  cases hlk : lookupStr p previous with
  | some w =>
    rw [hlk] at h
    simp at h
    rw [h]
  | none =>
    rw [hlk] at h
    by_cases hc : objectProtoKeys.contains p = true
    · rw [if_pos hc] at h
      exact absurd h (by simp)
    · rw [if_neg hc] at h
      exact absurd h (by simp)

theorem processResults_spec (previous : List (String × String))
    (hvals : ∀ v ∈ previous.map (·.2), v ≠ "") :
    ∀ (l : List BatchResult) (rep : ChangeReport) (seen : List String),
      (∀ r ∈ l, r.filePath ≠ "") →
      processResults previous l rep seen =
        ({ rep with
            errors := rep.errors ++
              (l.filter (fun r => r.status == "error")).map (fun r => (r.filePath, r.error)),
            added := rep.added ++
              (l.filter (fun r => r.status != "error" &&
                (jsGet previous r.filePath).isNone)).map (·.filePath),
            modified := rep.modified ++
              (l.filter (fun r => r.status != "error" &&
                (match jsGet previous r.filePath with
                 | some (.own pid) => r.identifier != some pid
                 | some .inherited => true
                 | none => false))).map (·.filePath),
            unchanged := rep.unchanged ++
              (l.filter (fun r => r.status != "error" &&
                (match jsGet previous r.filePath with
                 | some (.own pid) => r.identifier == some pid
                 | some .inherited => false
                 | none => false))).map (·.filePath) },
         seen ++ l.map (·.filePath)) := by
  intro l
  induction l with
  | nil => intro rep seen _; simp [processResults]
  | cons r rest ih =>
    intro rep seen h
    have hr : r.filePath ≠ "" := h r (List.mem_cons_self r rest)
    have hrest : ∀ x ∈ rest, x.filePath ≠ "" := fun x hx => h x (List.mem_cons_of_mem r hx)
    have hrp : (r.filePath == "") = false := by simpa using hr
    by_cases hst : (r.status == "error") = true
    · have hst' : (r.status != "error") = false := by simp [bne, hst]
      simp only [processResults, hrp, Bool.false_eq_true, if_false, hst, if_true]
      rw [ih _ _ hrest]
      simp [hst, hst', List.filter, List.append_assoc]
    · have hstf : (r.status == "error") = false := by simpa using hst
      have hst' : (r.status != "error") = true := by simp [bne, hstf]
      cases hlk : jsGet previous r.filePath with
      | none =>
        simp only [processResults, hrp, Bool.false_eq_true, if_false, hstf, hlk]
        rw [ih _ _ hrest]
        simp [hstf, hst', hlk, List.filter, List.append_assoc]
      | some mp =>
        cases mp with
        | inherited =>
          simp only [processResults, hrp, Bool.false_eq_true, if_false, hstf, hlk]
          rw [ih _ _ hrest]
          simp [hstf, hst', hlk, List.filter, List.append_assoc]
        | own pid =>
          have hpid : pid ≠ "" :=
            hvals pid (lookupStr_mem_val _ previous pid (jsGet_own previous r.filePath pid hlk))
          have hpidf : (pid == "") = false := by simpa using hpid
          by_cases hid : (r.identifier != some pid) = true
          · have hid' : (r.identifier == some pid) = false := by
              simpa [bne] using hid
            simp only [processResults, hrp, Bool.false_eq_true, if_false, hstf, hlk, hpidf, hid,
              if_true]
            rw [ih _ _ hrest]
            simp [hstf, hst', hlk, hid, hid', List.filter, List.append_assoc]
          · have hidf : (r.identifier != some pid) = false := by simpa using hid
            have hid' : (r.identifier == some pid) = true := by
              simpa [bne] using hid
            simp only [processResults, hrp, Bool.false_eq_true, if_false, hstf, hlk, hpidf, hidf,
              if_false]
            rw [ih _ _ hrest]
            simp [hstf, hst', hlk, hidf, hid', List.filter, List.append_assoc]

theorem four_way_partition (previous : List (String × String)) :
    ∀ l : List BatchResult,
      (l.filter (fun r => r.status == "error")).length +
      (l.filter (fun r => r.status != "error" &&
        (jsGet previous r.filePath).isNone)).length +
      (l.filter (fun r => r.status != "error" &&
        (match jsGet previous r.filePath with
         | some (.own pid) => r.identifier != some pid
         | some .inherited => true
         | none => false))).length +
      (l.filter (fun r => r.status != "error" &&
        (match jsGet previous r.filePath with
         | some (.own pid) => r.identifier == some pid
         | some .inherited => false
         | none => false))).length = l.length := by
  intro l
  induction l with
  | nil => simp
  | cons r rest ih =>
    by_cases hst : (r.status == "error") = true
    · have hst' : (r.status != "error") = false := by simp [bne, hst]
      simp [List.filter, hst, hst']
      omega
    · have hstf : (r.status == "error") = false := by simpa using hst
      have hst' : (r.status != "error") = true := by simp [bne, hstf]
      cases hlk : jsGet previous r.filePath with
      | none =>
        simp [List.filter, hstf, hst', hlk]
        omega
      | some mp =>
        cases mp with
        | inherited =>
          simp [List.filter, hstf, hst', hlk]
          omega
        | own pid =>
          by_cases hid : (r.identifier != some pid) = true
          · have hid' : (r.identifier == some pid) = false := by simpa [bne] using hid
            simp [List.filter, hstf, hst', hlk, hid, hid']
            omega
          · have hidf : (r.identifier != some pid) = false := by simpa using hid
            have hid' : (r.identifier == some pid) = true := by simpa [bne] using hid
            simp [List.filter, hstf, hst', hlk, hidf, hid']
            omega

/-- **C7** (corrected): under a well-formed input — every current result carries
a (truthy) file path and every manifest value is a (truthy) identifier string —
the report is fully characterized: error-status results go to `errors`; success
results go to `added` when the property read `previous[filePath]` is
`undefined` (the path is neither an own manifest key nor an `Object.prototype`
member name), to `modified` when the stored identifier differs — or when the
path, absent from the manifest's own keys, names an inherited
`Object.prototype` member, whose truthy value is never strictly equal to the
string identifier — and to `unchanged` when the own stored identifier matches;
`removed` is exactly the own manifest keys (`Object.keys`) appearing among no
current result; and the four current buckets together contain exactly one entry
per current result.  (The original claim routed every path absent from the
manifest to `added`; the prototype chain refutes that, see the
counterexample.) -/
theorem claim7_change_report (current : List BatchResult) (previous : List (String × String))
    (hpaths : ∀ r ∈ current, r.filePath ≠ "")
    (hvals : ∀ v ∈ previous.map (·.2), v ≠ "") :
    (generateChangeReport current previous).errors =
      (current.filter (fun r => r.status == "error")).map (fun r => (r.filePath, r.error)) ∧
    (generateChangeReport current previous).added =
      (current.filter (fun r => r.status != "error" &&
        (jsGet previous r.filePath).isNone)).map (·.filePath) ∧
    (generateChangeReport current previous).modified =
      (current.filter (fun r => r.status != "error" &&
        (match jsGet previous r.filePath with
         | some (.own pid) => r.identifier != some pid
         | some .inherited => true
         | none => false))).map (·.filePath) ∧
    (generateChangeReport current previous).unchanged =
      (current.filter (fun r => r.status != "error" &&
        (match jsGet previous r.filePath with
         | some (.own pid) => r.identifier == some pid
         | some .inherited => false
         | none => false))).map (·.filePath) ∧
    (generateChangeReport current previous).removed =
      (previous.map (·.1)).filter (fun k => !((current.map (·.filePath)).contains k)) ∧
    (generateChangeReport current previous).errors.length +
      (generateChangeReport current previous).added.length +
      (generateChangeReport current previous).modified.length +
      (generateChangeReport current previous).unchanged.length = current.length := by
  have hspec := processResults_spec previous hvals current ⟨[], [], [], [], []⟩ [] hpaths
  have hrep : generateChangeReport current previous =
      { added := (current.filter (fun r => r.status != "error" &&
          (jsGet previous r.filePath).isNone)).map (·.filePath),
        modified := (current.filter (fun r => r.status != "error" &&
          (match jsGet previous r.filePath with
           | some (.own pid) => r.identifier != some pid
           | some .inherited => true
           | none => false))).map (·.filePath),
        unchanged := (current.filter (fun r => r.status != "error" &&
          (match jsGet previous r.filePath with
           | some (.own pid) => r.identifier == some pid
           | some .inherited => false
           | none => false))).map (·.filePath),
        removed := (previous.map (·.1)).filter
          (fun k => !((current.map (·.filePath)).contains k)),
        errors := (current.filter (fun r => r.status == "error")).map
          (fun r => (r.filePath, r.error)) } := by
    unfold generateChangeReport
    rw [hspec]
    simp
  refine ⟨by rw [hrep], by rw [hrep], by rw [hrep], by rw [hrep], by rw [hrep], ?_⟩
  rw [hrep]
  simp only [List.length_map]
  exact four_way_partition previous current

/-- Witness for C7: one unchanged path, one added path, one removed manifest
key, and a path naming `Object.prototype.toString` that is classified
modified. -/
theorem claim7_change_report_witness :
    (generateChangeReport curW7 prevW).added = ["c"] ∧
    (generateChangeReport curW7 prevW).modified = ["toString"] ∧
    (generateChangeReport curW7 prevW).unchanged = ["a"] ∧
    (generateChangeReport curW7 prevW).removed = ["b"] ∧
    (generateChangeReport curW7 prevW).errors = [] ∧
    (generateChangeReport curW7 prevW).errors.length +
      (generateChangeReport curW7 prevW).added.length +
      (generateChangeReport curW7 prevW).modified.length +
      (generateChangeReport curW7 prevW).unchanged.length = curW7.length := by
  obtain ⟨h1, h2, h3, h4, h5, h6⟩ := claim7_change_report curW7 prevW (by decide) (by decide)
  exact ⟨by rw [h2]; decide, by rw [h3]; decide, by rw [h4]; decide, by rw [h5]; decide,
    by rw [h1]; decide, h6⟩

/-- C7 counterexample: the path `toString` is absent from the (empty) previous
manifest, yet the report classifies it as modified rather than added:
`previous["toString"]` finds the inherited `Object.prototype.toString`
function, which is truthy and strictly unequal to the string identifier. -/
theorem claim7_counterexample :
    lookupStr "toString" ([] : List (String × String)) = none ∧
    (generateChangeReport curProto ([] : List (String × String))).added = [] ∧
    (generateChangeReport curProto ([] : List (String × String))).modified = ["toString"] := by
  decide

/-! ## C6: idempotence of normalization -/

theorem char_toNat_ofNat (n : Nat) (h : n.isValidChar) : (Char.ofNat n).toNat = n := by
  unfold Char.ofNat
  rw [dif_pos h]
  rfl

theorem charLower_idem (c : Char) : charLower (charLower c) = charLower c := by
  unfold charLower
  by_cases h : (65 ≤ c.toNat && c.toNat ≤ 90) = true
  · rw [if_pos h]
    have hb : 65 ≤ c.toNat ∧ c.toNat ≤ 90 := by simpa using h
    have hv : (c.toNat + 32).isValidChar := by
      left
      omega
    have ht : (Char.ofNat (c.toNat + 32)).toNat = c.toNat + 32 := char_toNat_ofNat _ hv
    rw [if_neg]
    rw [ht]
    simp
    omega
  · rw [if_neg h, if_neg h]

theorem strLower_idem (s : String) : strLower (strLower s) = strLower s := by
  unfold strLower
  show String.mk ((s.data.map charLower).map charLower) = String.mk (s.data.map charLower)
  rw [List.map_map]
  have hfun : charLower ∘ charLower = charLower := funext charLower_idem
  rw [hfun]

theorem isHexCharCI_charLower (c : Char) (h : isHexCharCI c = true) :
    isHexCharCI (charLower c) = true := by
  unfold charLower
  by_cases hu : (65 ≤ c.toNat && c.toNat ≤ 90) = true
  · rw [if_pos hu]
    have hb : 65 ≤ c.toNat ∧ c.toNat ≤ 90 := by simpa using hu
    have hv : (c.toNat + 32).isValidChar := by left; omega
    have ht : (Char.ofNat (c.toNat + 32)).toNat = c.toNat + 32 := char_toNat_ofNat _ hv
    unfold isHexCharCI at h ⊢
    rw [ht]
    simp only [Bool.or_eq_true, Bool.and_eq_true, decide_eq_true_eq] at h ⊢
    omega
  · rw [if_neg hu]
    exact h

theorem length_strLower (s : String) : (strLower s).length = s.length := by
  unfold strLower
  show (s.data.map charLower).length = s.data.length
  simp

theorem isValidHashStr_strLower (s : String) (h : isValidHashStr s = true) :
    isValidHashStr (strLower s) = true := by
  unfold isValidHashStr at *
  simp only [Bool.and_eq_true, beq_iff_eq] at h ⊢
  constructor
  · rw [length_strLower]; exact h.1
  · have h2 := h.2
    show (s.data.map charLower).all isHexCharCI = true
    simp only [List.all_eq_true] at h2 ⊢
    intro c hc
    obtain ⟨d, hd, rfl⟩ := List.mem_map.mp hc
    exact isHexCharCI_charLower d (h2 d hd)

theorem strLower_ne_empty (s : String) (h : isValidHashStr s = true) : strLower s ≠ "" := by
  intro hcon
  have hl := length_strLower s
  rw [hcon] at hl
  unfold isValidHashStr at h
  simp only [Bool.and_eq_true, beq_iff_eq] at h
  rw [h.1] at hl
  exact absurd hl (by decide)

theorem optField_idem (x : Option JsonVal) : optField (optField x) = optField x := by
  cases x with
  | none => rfl
  | some v =>
    by_cases h : isFalsy v = true
    · show optField (if isFalsy v = true then none else some v) =
        (if isFalsy v = true then none else some v)
      rw [if_pos h]
      rfl
    · show optField (if isFalsy v = true then none else some v) =
        (if isFalsy v = true then none else some v)
      rw [if_neg h]
      show (if isFalsy v = true then none else some v) = some v
      rw [if_neg h]

theorem isFalsyOpt_false_elim (o : Option JsonVal) (h : isFalsyOpt o = false) :
    o = some (getVal o) ∧ isFalsy (getVal o) = false := by
  cases o with
  | none => exact absurd h (by simp [isFalsyOpt])
  | some v => exact ⟨rfl, h⟩

theorem getHashStr_ok_elim (v : Option JsonVal) (fn s : String) (h : getHashStr v fn = .ok s) :
    v = some (.str s) ∧ isValidHashStr s = true := by
  match v with
  | some (.str s') =>
    rw [getHashStr] at h
    by_cases hv : isValidHashStr s' = true
    · rw [if_pos hv] at h
      have : s' = s := Except.ok.inj h
      subst this
      exact ⟨rfl, hv⟩
    · rw [if_neg hv] at h
      exact absurd h (by simp)
  | some (.num n) => exact absurd h (by simp [getHashStr])
  | some (.boolean b) => exact absurd h (by simp [getHashStr])
  | some .null => exact absurd h (by simp [getHashStr])
  | some .arrNil => exact absurd h (by simp [getHashStr])
  | some (.arrCons a b) => exact absurd h (by simp [getHashStr])
  | some .objNil => exact absurd h (by simp [getHashStr])
  | some (.objCons a b c) => exact absurd h (by simp [getHashStr])
  | none => exact absurd h (by simp [getHashStr])

theorem lastModE_stable (env : JsEnv) (v0 : Option JsonVal) (lm : Option JsonVal)
    (hdate : ∀ v s, env.dateNorm v = some s → env.dateNorm (.str s) = some s)
    (h : lastModE env v0 = .ok lm) :
    lastModE env lm = .ok lm := by
  cases v0 with
  | none =>
    simp only [lastModE] at h
    have : lm = none := (Except.ok.inj h).symm
    subst this
    rfl
  | some v =>
    simp only [lastModE] at h
    by_cases hf : isFalsy v = true
    · rw [if_pos hf] at h
      cases v with
      | null =>
        have : lm = none := (Except.ok.inj h).symm
        subst this
        rfl
      | str s =>
        have : lm = some (.str s) := (Except.ok.inj h).symm
        subst this
        simp only [lastModE]
        rw [if_pos hf]
      | num n =>
        have : lm = some (.num n) := (Except.ok.inj h).symm
        subst this
        simp only [lastModE]
        rw [if_pos hf]
      | boolean b =>
        have : lm = some (.boolean b) := (Except.ok.inj h).symm
        subst this
        simp only [lastModE]
        rw [if_pos hf]
      | arrNil => exact absurd hf (by simp [isFalsy])
      | arrCons a b => exact absurd hf (by simp [isFalsy])
      | objNil => exact absurd hf (by simp [isFalsy])
      | objCons a b c => exact absurd hf (by simp [isFalsy])
    · rw [if_neg hf] at h
      cases hd : env.dateNorm v with
      | none => rw [hd] at h; exact absurd h (by simp)
      | some iso =>
        rw [hd] at h
        have : lm = some (.str iso) := (Except.ok.inj h).symm
        subst this
        simp only [lastModE]
        by_cases hiso : isFalsy (.str iso) = true
        · rw [if_pos hiso]
        · rw [if_neg hiso, hdate v iso hd]

theorem normalizeMetadata_build (env : JsEnv) (raw : JsObj) (ch fh fp : String)
    (lm : Option JsonVal)
    (hreq : reqCheck raw = none)
    (hch : getHashStr (lookupVal "commitHash" raw) "commitHash" = .ok ch)
    (hfh : getHashStr (lookupVal "fileHash" raw) "fileHash" = .ok fh)
    (hfp : normPathE (lookupVal "filePath" raw) = .ok fp)
    (hlm : lastModE env (lookupVal "lastModified" raw) = .ok lm) :
    normalizeMetadata env raw =
      .ok (buildNormalized (getVal (lookupVal "branch" raw)) (strLower ch) (strLower fh) fp lm
        (getVal (lookupVal "owner" raw)) (getVal (lookupVal "repo" raw))
        (getVal (lookupVal "source" raw)) (optField (lookupVal "htmlUrl" raw))
        (optField (lookupVal "repoPath" raw))) := by
  unfold normalizeMetadata
  rw [hreq, hch, hfh, hfp, hlm]

/-- C6 (amended): normalization is idempotent on every record whose normalized
`filePath` is a nonempty fixed point of path normalization (and for a `Date`
runtime that round-trips its own ISO output, which JS does).  The fixed-point
proviso is forced by the counterexample: one pass strips only one leading `./`,
so e.g. raw `filePath: "././x"` normalizes to `"./x"`, which a second pass
changes to `"x"`; similarly `"/"` normalizes to `""`, which a second pass
rejects. -/
theorem claim6_idempotent_on_fixed_paths (env : JsEnv) (raw n : JsObj) (p : String)
    (hn : normalizeMetadata env raw = .ok n)
    (hdate : ∀ v s, env.dateNorm v = some s → env.dateNorm (.str s) = some s)
    (hp : lookupVal "filePath" n = some (.str p))
    (hfix : normalizeFilePathStr p = p) (hne : p ≠ "") :
    normalizeMetadata env n = .ok n := by
  obtain ⟨hreq, ch, fh, fp, lm, hch, hfh, hfp, hlm, hbuild⟩ :=
    normalizeMetadata_ok_elim env raw n hn
  have hfp_eq : fp = p := by
    rw [hbuild, lookup_build_filePath] at hp
    exact JsonVal.str.inj (Option.some.inj hp)
  have hreq' := hreq
  unfold reqCheck at hreq'
  have hall : ∀ f ∈ requiredFields, isFalsyOpt (lookupVal f raw) = false := by
    intro f hf
    simpa using List.find?_eq_none.mp hreq' f hf
  have hsrc := hall "source" (by decide)
  have hown := hall "owner" (by decide)
  have hrepo := hall "repo" (by decide)
  have hbr := hall "branch" (by decide)
  obtain ⟨-, hchvalid⟩ := getHashStr_ok_elim _ _ _ hch
  obtain ⟨-, hfhvalid⟩ := getHashStr_ok_elim _ _ _ hfh
  have ln_br : lookupVal "branch" n = some (getVal (lookupVal "branch" raw)) := by
    rw [hbuild, lookup_build_branch]
  have ln_ch : lookupVal "commitHash" n = some (.str (strLower ch)) := by
    rw [hbuild, lookup_build_commitHash]
  have ln_fh : lookupVal "fileHash" n = some (.str (strLower fh)) := by
    rw [hbuild, lookup_build_fileHash]
  have ln_fp : lookupVal "filePath" n = some (.str p) := hp
  have ln_lm : lookupVal "lastModified" n = lm := by
    rw [hbuild, lookup_build_lastModified]
  have ln_ow : lookupVal "owner" n = some (getVal (lookupVal "owner" raw)) := by
    rw [hbuild, lookup_build_owner]
  have ln_rp : lookupVal "repo" n = some (getVal (lookupVal "repo" raw)) := by
    rw [hbuild, lookup_build_repo]
  have ln_sr : lookupVal "source" n = some (getVal (lookupVal "source" raw)) := by
    rw [hbuild, lookup_build_source]
  have ln_hu : lookupVal "htmlUrl" n = optField (lookupVal "htmlUrl" raw) := by
    rw [hbuild, lookup_build_htmlUrl]
  have ln_rpv : lookupVal "repoPath" n = optField (lookupVal "repoPath" raw) := by
    rw [hbuild, lookup_build_repoPath]
  have hreqn : reqCheck n = none := by
    unfold reqCheck
    rw [List.find?_eq_none]
    intro f hf
    have hf' : f = "source" ∨ f = "owner" ∨ f = "repo" ∨ f = "branch" ∨ f = "commitHash" ∨
        f = "filePath" ∨ f = "fileHash" := by simpa [requiredFields] using hf
    rcases hf' with rfl | rfl | rfl | rfl | rfl | rfl | rfl
    · rw [ln_sr]; simp [isFalsyOpt, (isFalsyOpt_false_elim _ hsrc).2]
    · rw [ln_ow]; simp [isFalsyOpt, (isFalsyOpt_false_elim _ hown).2]
    · rw [ln_rp]; simp [isFalsyOpt, (isFalsyOpt_false_elim _ hrepo).2]
    · rw [ln_br]; simp [isFalsyOpt, (isFalsyOpt_false_elim _ hbr).2]
    · rw [ln_ch]
      simp [isFalsyOpt, isFalsy, strLower_ne_empty ch hchvalid]
    · rw [ln_fp]
      simp [isFalsyOpt, isFalsy, hne]
    · rw [ln_fh]
      simp [isFalsyOpt, isFalsy, strLower_ne_empty fh hfhvalid]
  have hchn : getHashStr (lookupVal "commitHash" n) "commitHash" = .ok (strLower ch) := by
    rw [ln_ch]
    show (if isValidHashStr (strLower ch) = true then Except.ok (strLower ch)
      else .error ("Invalid Git hash format for " ++ "commitHash" ++
        ": expected 40-character hex string")) = .ok (strLower ch)
    rw [if_pos (isValidHashStr_strLower ch hchvalid)]
  have hfhn : getHashStr (lookupVal "fileHash" n) "fileHash" = .ok (strLower fh) := by
    rw [ln_fh]
    show (if isValidHashStr (strLower fh) = true then Except.ok (strLower fh)
      else .error ("Invalid Git hash format for " ++ "fileHash" ++
        ": expected 40-character hex string")) = .ok (strLower fh)
    rw [if_pos (isValidHashStr_strLower fh hfhvalid)]
  have hfpn : normPathE (lookupVal "filePath" n) = .ok p := by
    rw [ln_fp]
    show Except.ok (normalizeFilePathStr p) = .ok p
    rw [hfix]
  have hlmn : lastModE env (lookupVal "lastModified" n) = .ok lm := by
    rw [ln_lm]
    exact lastModE_stable env (lookupVal "lastModified" raw) lm hdate hlm
  have hfinal := normalizeMetadata_build env n (strLower ch) (strLower fh) p lm hreqn hchn hfhn
    hfpn hlmn
  rw [hfinal, ln_br, ln_ow, ln_rp, ln_sr, ln_hu, ln_rpv, optField_idem, optField_idem,
    strLower_idem, strLower_idem]
  show Except.ok (buildNormalized (getVal (lookupVal "branch" raw)) (strLower ch) (strLower fh)
    p lm (getVal (lookupVal "owner" raw)) (getVal (lookupVal "repo" raw))
    (getVal (lookupVal "source" raw)) (optField (lookupVal "htmlUrl" raw))
    (optField (lookupVal "repoPath" raw))) = Except.ok n
  rw [hbuild, hfp_eq]

/-- C6 witness for the amended claim: a record whose normalized path
`"src/a.js"` is a nonempty fixed point re-normalizes to itself. -/
theorem claim6_idempotent_on_fixed_paths_witness :
    normalizeMetadata envW normW = .ok normW :=
  claim6_idempotent_on_fixed_paths envW rawW1 normW "src/a.js" (by decide)
    (fun v s h => by
      cases v with
      | str s' => rfl
      | num n => exact Option.noConfusion h
      | boolean b => exact Option.noConfusion h
      | null => exact Option.noConfusion h
      | arrNil => exact Option.noConfusion h
      | arrCons a b => exact Option.noConfusion h
      | objNil => exact Option.noConfusion h
      | objCons a b c => exact Option.noConfusion h)
    (by decide) (by decide) (by decide)

/-- C6 counterexample: `rawC6` (raw `filePath: "././x"`) normalizes successfully
to `normC6` (`filePath: "./x"`), but a second normalization does not return
`normC6` — normalization is not idempotent as claimed. -/
theorem claim6_counterexample :
    normalizeMetadata envW rawC6 = .ok normC6 ∧
    normalizeMetadata envW normC6 ≠ .ok normC6 := by
  refine ⟨by decide, by decide⟩

/-! ## C8: manifest save/load round trip -/

theorem hexVal_hexDig (m : Nat) (h : m < 16) : hexVal (hexDig m) = some m := by
  interval_cases m <;> decide

theorem parseStrBody_quote (rest : List Char) :
    parseStrBody ('"' :: rest) = some ([], rest) := by
  rw [parseStrBody.eq_def]
  rfl

theorem parseStrBody_escQuote (rest : List Char) : parseStrBody ('\\' :: '"' :: rest) =
    (parseStrBody rest).map (fun p => ('"' :: p.1, p.2)) := by
  rw [parseStrBody.eq_def]
  rfl

theorem parseStrBody_escBack (rest : List Char) : parseStrBody ('\\' :: '\\' :: rest) =
    (parseStrBody rest).map (fun p => ('\\' :: p.1, p.2)) := by
  rw [parseStrBody.eq_def]
  rfl

theorem parseStrBody_escB (rest : List Char) : parseStrBody ('\\' :: 'b' :: rest) =
    (parseStrBody rest).map (fun p => (Char.ofNat 8 :: p.1, p.2)) := by
  rw [parseStrBody.eq_def]
  rfl

theorem parseStrBody_escT (rest : List Char) : parseStrBody ('\\' :: 't' :: rest) =
    (parseStrBody rest).map (fun p => (Char.ofNat 9 :: p.1, p.2)) := by
  rw [parseStrBody.eq_def]
  rfl

theorem parseStrBody_escN (rest : List Char) : parseStrBody ('\\' :: 'n' :: rest) =
    (parseStrBody rest).map (fun p => ('\n' :: p.1, p.2)) := by
  rw [parseStrBody.eq_def]
  rfl

theorem parseStrBody_escF (rest : List Char) : parseStrBody ('\\' :: 'f' :: rest) =
    (parseStrBody rest).map (fun p => (Char.ofNat 12 :: p.1, p.2)) := by
  rw [parseStrBody.eq_def]
  rfl

theorem parseStrBody_escR (rest : List Char) : parseStrBody ('\\' :: 'r' :: rest) =
    (parseStrBody rest).map (fun p => (Char.ofNat 13 :: p.1, p.2)) := by
  rw [parseStrBody.eq_def]
  rfl

theorem parseStrBody_other (c : Char) (rest : List Char) (h1 : ¬ c = '"') (h2 : ¬ c = '\\') :
    parseStrBody (c :: rest) = (parseStrBody rest).map (fun p => (c :: p.1, p.2)) := by
  rw [parseStrBody.eq_def]
  show (if c = '"' then some ([], rest) else if c = '\\' then _ else
    (parseStrBody rest).map (fun p => (c :: p.1, p.2))) = _
  rw [if_neg h1, if_neg h2]

theorem parseStrBody_u (hi lo : Nat) (hhi : hi < 16) (hlo : lo < 16) (tail : List Char) :
    parseStrBody ('\\' :: 'u' :: '0' :: '0' :: hexDig hi :: hexDig lo :: tail) =
      (parseStrBody tail).map (fun p => (Char.ofNat (hi * 16 + lo) :: p.1, p.2)) := by
  rw [parseStrBody.eq_def]
  show (match hexVal '0', hexVal '0', hexVal (hexDig hi), hexVal (hexDig lo) with
    | some a, some b, some cc, some d =>
      Option.map (fun (p : List Char × List Char) =>
        (Char.ofNat (((a * 16 + b) * 16 + cc) * 16 + d) :: p.1, p.2)) (parseStrBody tail)
    | _, _, _, _ => none) = _
  rw [hexVal_hexDig hi hhi, hexVal_hexDig lo hlo, show hexVal '0' = some 0 from rfl]
  show Option.map (fun (p : List Char × List Char) =>
    (Char.ofNat (((0 * 16 + 0) * 16 + hi) * 16 + lo) :: p.1, p.2)) (parseStrBody tail) = _
  have harith : ((0 * 16 + 0) * 16 + hi) * 16 + lo = hi * 16 + lo := by ring
  rw [harith]

/-- The JSON escaping of `escChar` is exactly inverted by `parseStrBody`, which
then stops at the first unescaped quote. -/
theorem parseStrBody_esc : ∀ (cs rest : List Char),
    parseStrBody (cs.flatMap escChar ++ '"' :: rest) = some (cs, rest) := by
  intro cs
  induction cs with
  | nil =>
    intro rest
    simp only [List.flatMap_nil, List.nil_append]
    exact parseStrBody_quote rest
  | cons c cs ih =>
    intro rest
    simp only [List.flatMap_cons, List.append_assoc]
    by_cases h1 : (c == '"') = true
    · have hc : c = '"' := by simpa using h1
      subst hc
      have he : escChar '"' = ['\\', '"'] := rfl
      rw [he]
      simp only [List.cons_append, List.nil_append]
      rw [parseStrBody_escQuote, ih]; rfl
    · by_cases h2 : (c == '\\') = true
      · have hc : c = '\\' := by simpa using h2
        subst hc
        have he : escChar '\\' = ['\\', '\\'] := rfl
        rw [he]
        simp only [List.cons_append, List.nil_append]
        rw [parseStrBody_escBack, ih]; rfl
      · by_cases h3 : (c.toNat == 8) = true
        · have hc : c = Char.ofNat 8 := by
            rw [← beq_iff_eq.mp h3, Char.ofNat_toNat]
          subst hc
          have he : escChar (Char.ofNat 8) = ['\\', 'b'] := rfl
          rw [he]
          simp only [List.cons_append, List.nil_append]
          rw [parseStrBody_escB, ih]; rfl
        · by_cases h4 : (c.toNat == 9) = true
          · have hc : c = Char.ofNat 9 := by
              rw [← beq_iff_eq.mp h4, Char.ofNat_toNat]
            subst hc
            have he : escChar (Char.ofNat 9) = ['\\', 't'] := rfl
            rw [he]
            simp only [List.cons_append, List.nil_append]
            rw [parseStrBody_escT, ih]; rfl
          · by_cases h5 : (c.toNat == 10) = true
            · have hc : c = Char.ofNat 10 := by
                rw [← beq_iff_eq.mp h5, Char.ofNat_toNat]
              subst hc
              have he : escChar (Char.ofNat 10) = ['\\', 'n'] := rfl
              rw [he]
              simp only [List.cons_append, List.nil_append]
              have hn : Char.ofNat 10 = '\n' := rfl
              rw [hn, parseStrBody_escN, ih]; rfl
            · by_cases h6 : (c.toNat == 12) = true
              · have hc : c = Char.ofNat 12 := by
                  rw [← beq_iff_eq.mp h6, Char.ofNat_toNat]
                subst hc
                have he : escChar (Char.ofNat 12) = ['\\', 'f'] := rfl
                rw [he]
                simp only [List.cons_append, List.nil_append]
                rw [parseStrBody_escF, ih]; rfl
              · by_cases h7 : (c.toNat == 13) = true
                · have hc : c = Char.ofNat 13 := by
                    rw [← beq_iff_eq.mp h7, Char.ofNat_toNat]
                  subst hc
                  have he : escChar (Char.ofNat 13) = ['\\', 'r'] := rfl
                  rw [he]
                  simp only [List.cons_append, List.nil_append]
                  rw [parseStrBody_escR, ih]; rfl
                · by_cases h8 : c.toNat < 32
                  · have he : escChar c =
                        ['\\', 'u', '0', '0', hexDig (c.toNat / 16), hexDig (c.toNat % 16)] := by
                      unfold escChar
                      rw [if_neg h1, if_neg h2, if_neg h3, if_neg h4, if_neg h5, if_neg h6,
                        if_neg h7, if_pos (by simpa using h8)]
                    rw [he]
                    simp only [List.cons_append, List.nil_append]
                    rw [parseStrBody_u (c.toNat / 16) (c.toNat % 16) (by omega) (by omega), ih]
                    have harith : c.toNat / 16 * 16 + c.toNat % 16 = c.toNat := by omega
                    rw [harith, Char.ofNat_toNat]
                    rfl
                  · have he : escChar c = [c] := by
                      unfold escChar
                      rw [if_neg h1, if_neg h2, if_neg h3, if_neg h4, if_neg h5, if_neg h6,
                        if_neg h7, if_neg (by simpa using h8)]
                    rw [he]
                    simp only [List.cons_append, List.nil_append]
                    rw [parseStrBody_other c _ (by simpa using h1) (by simpa using h2), ih]; rfl

theorem skipWs_cons_not (c : Char) (l : List Char) (h : isJsonWs c = false) :
    skipWs (c :: l) = c :: l := by
  unfold skipWs
  rw [List.dropWhile_cons_of_neg (by simp [h])]

theorem skipWs_cons_ws (c : Char) (l : List Char) (h : isJsonWs c = true) :
    skipWs (c :: l) = skipWs l := by
  unfold skipWs
  rw [List.dropWhile_cons_of_pos (by simp [h])]

theorem parseStrLit_quote (s : String) (rest : List Char) :
    parseStrLit (quoteJson s ++ rest) = some (s, rest) := by
  have hshape : quoteJson s ++ rest = '"' :: (s.data.flatMap escChar ++ '"' :: rest) := by
    simp [quoteJson]
  rw [hshape]
  show (parseStrBody (s.data.flatMap escChar ++ '"' :: rest)).map
    (fun p => (String.mk p.1, p.2)) = some (s, rest)
  rw [parseStrBody_esc]
  rfl

theorem skipWs_quote (s : String) (rest : List Char) :
    skipWs (quoteJson s ++ rest) = quoteJson s ++ rest := by
  have hshape : quoteJson s ++ rest = '"' :: (s.data.flatMap escChar ++ '"' :: rest) := by
    simp [quoteJson]
  rw [hshape, skipWs_cons_not _ _ (by decide)]

theorem manifestCompactBody_one (k v : String) : manifestCompactBody [(k, v)] =
    quoteJson k ++ ':' :: (quoteJson v ++ ['\x7d']) := by
  rw [manifestCompactBody.eq_def]
  dsimp only
  simp [List.append_assoc]

theorem manifestCompactBody_cons2 (k v : String) (kv2 : String × String)
    (m'' : List (String × String)) :
    manifestCompactBody ((k, v) :: kv2 :: m'') =
    quoteJson k ++ ':' :: (quoteJson v ++ ',' :: manifestCompactBody (kv2 :: m'')) := by
  rw [manifestCompactBody.eq_def]
  dsimp only
  simp [List.append_assoc]

theorem manifestPrettyBody_one (k v : String) : manifestPrettyBody [(k, v)] =
    ' ' :: ' ' :: (quoteJson k ++ ':' :: ' ' :: (quoteJson v ++ '\n' :: ['\x7d'])) := by
  rw [manifestPrettyBody.eq_def]
  dsimp only
  simp [List.append_assoc]

theorem manifestPrettyBody_cons2 (k v : String) (kv2 : String × String)
    (m'' : List (String × String)) :
    manifestPrettyBody ((k, v) :: kv2 :: m'') =
    ' ' :: ' ' :: (quoteJson k ++ ':' :: ' ' :: (quoteJson v ++ ',' :: '\n' ::
      manifestPrettyBody (kv2 :: m''))) := by
  rw [manifestPrettyBody.eq_def]
  dsimp only
  simp [List.append_assoc]

theorem parseEntries_compact : ∀ (m : List (String × String)) (fuel : Nat),
    m ≠ [] → m.length ≤ fuel →
    parseEntries fuel (manifestCompactBody m) = some (m, []) := by
  intro m
  induction m with
  | nil => intro fuel h _; exact absurd rfl h
  | cons kv m' ih =>
    intro fuel _ hfuel
    obtain ⟨k, v⟩ := kv
    cases fuel with
    | zero => simp at hfuel
    | succ f =>
      cases m' with
      | nil =>
        rw [parseEntries.eq_def, manifestCompactBody_one]
        dsimp only
        rw [skipWs_quote, parseStrLit_quote]
        dsimp only
        rw [skipWs_cons_not ':' _ (by decide)]
        dsimp only
        rw [if_pos rfl, skipWs_quote, parseStrLit_quote]
        dsimp only
        rw [skipWs_cons_not '\x7d' _ (by decide)]
        dsimp only
        rw [if_neg (by decide), if_pos rfl]
      | cons kv2 m'' =>
        rw [parseEntries.eq_def, manifestCompactBody_cons2]
        dsimp only
        rw [skipWs_quote, parseStrLit_quote]
        dsimp only
        rw [skipWs_cons_not ':' _ (by decide)]
        dsimp only
        rw [if_pos rfl, skipWs_quote, parseStrLit_quote]
        dsimp only
        rw [skipWs_cons_not ',' _ (by decide)]
        dsimp only
        rw [if_pos rfl, ih f (by simp) (by simp at hfuel ⊢; omega)]

theorem parseEntries_pretty : ∀ (m : List (String × String)) (fuel : Nat),
    m ≠ [] → m.length ≤ fuel →
    parseEntries fuel ('\n' :: manifestPrettyBody m) = some (m, []) := by
  intro m
  induction m with
  | nil => intro fuel h _; exact absurd rfl h
  | cons kv m' ih =>
    intro fuel _ hfuel
    obtain ⟨k, v⟩ := kv
    cases fuel with
    | zero => simp at hfuel
    | succ f =>
      cases m' with
      | nil =>
        rw [parseEntries.eq_def, manifestPrettyBody_one]
        dsimp only
        rw [skipWs_cons_ws '\n' _ (by decide), skipWs_cons_ws ' ' _ (by decide),
          skipWs_cons_ws ' ' _ (by decide), skipWs_quote, parseStrLit_quote]
        dsimp only
        rw [skipWs_cons_not ':' _ (by decide)]
        dsimp only
        rw [if_pos rfl, skipWs_cons_ws ' ' _ (by decide), skipWs_quote, parseStrLit_quote]
        dsimp only
        rw [skipWs_cons_ws '\n' _ (by decide), skipWs_cons_not '\x7d' _ (by decide)]
        dsimp only
        rw [if_neg (by decide), if_pos rfl]
      | cons kv2 m'' =>
        rw [parseEntries.eq_def, manifestPrettyBody_cons2]
        dsimp only
        rw [skipWs_cons_ws '\n' _ (by decide), skipWs_cons_ws ' ' _ (by decide),
          skipWs_cons_ws ' ' _ (by decide), skipWs_quote, parseStrLit_quote]
        dsimp only
        rw [skipWs_cons_not ':' _ (by decide)]
        dsimp only
        rw [if_pos rfl, skipWs_cons_ws ' ' _ (by decide), skipWs_quote, parseStrLit_quote]
        dsimp only
        rw [skipWs_cons_not ',' _ (by decide)]
        dsimp only
        rw [if_pos rfl, ih f (by simp) (by simp at hfuel ⊢; omega)]

theorem quoteJson_shape (s : String) (rest : List Char) :
    quoteJson s ++ rest = '"' :: (s.data.flatMap escChar ++ '"' :: rest) := by
  simp [quoteJson]

theorem length_le_compactBody : ∀ m : List (String × String),
    m.length ≤ (manifestCompactBody m).length := by
  intro m
  induction m with
  | nil => simp [manifestCompactBody]
  | cons kv m' ih =>
    obtain ⟨k, v⟩ := kv
    cases m' with
    | nil =>
      rw [manifestCompactBody_one]
      simp [List.length_append]
      omega
    | cons kv2 m'' =>
      rw [manifestCompactBody_cons2]
      simp only [List.length_append, List.length_cons]
      simp at ih ⊢
      omega

theorem length_le_prettyBody : ∀ m : List (String × String),
    m.length ≤ (manifestPrettyBody m).length := by
  intro m
  induction m with
  | nil => simp [manifestPrettyBody]
  | cons kv m' ih =>
    obtain ⟨k, v⟩ := kv
    cases m' with
    | nil =>
      rw [manifestPrettyBody_one]
      simp [List.length_append]
    | cons kv2 m'' =>
      rw [manifestPrettyBody_cons2]
      simp only [List.length_append, List.length_cons]
      simp at ih ⊢
      omega

/-- C8: `loadManifest (saveManifest m pretty)` recovers exactly `m`, for every
manifest `m` and for both values of the pretty-print flag. -/
theorem claim8_manifest_roundtrip (pretty : Bool) (m : List (String × String)) :
    loadManifest (saveManifest m pretty) = .ok m := by
  cases pretty with
  | false =>
    cases m with
    | nil => decide
    | cons kv m' =>
      obtain ⟨k, v⟩ := kv
      have hlen := length_le_compactBody ((k, v) :: m')
      have hsave : saveManifest ((k, v) :: m') false =
          String.mk ('\x7b' :: manifestCompactBody ((k, v) :: m')) := by
        simp [saveManifest]
      rw [hsave, loadManifest.eq_def]
      dsimp only
      rw [skipWs_cons_not '\x7b' _ (by decide)]
      dsimp only
      rw [if_pos rfl]
      cases m' with
      | nil =>
        have hscrut : skipWs (manifestCompactBody [(k, v)]) =
            '"' :: (k.data.flatMap escChar ++ '"' ::
              (':' :: (quoteJson v ++ ['\x7d']))) := by
          rw [manifestCompactBody_one, skipWs_quote, quoteJson_shape]
        rw [hscrut]
        dsimp only
        rw [if_neg (by decide)]
        rw [parseEntries_compact [(k, v)] _ (by simp)
          (by simp only [List.length_cons] at hlen ⊢; omega)]
        rfl
      | cons kv2 m'' =>
        have hscrut : skipWs (manifestCompactBody ((k, v) :: kv2 :: m'')) =
            '"' :: (k.data.flatMap escChar ++ '"' ::
              (':' :: (quoteJson v ++ ',' :: manifestCompactBody (kv2 :: m'')))) := by
          rw [manifestCompactBody_cons2, skipWs_quote, quoteJson_shape]
        rw [hscrut]
        dsimp only
        rw [if_neg (by decide)]
        rw [parseEntries_compact ((k, v) :: kv2 :: m'') _ (by simp)
          (by simp only [List.length_cons] at hlen ⊢; omega)]
        rfl
  | true =>
    cases m with
    | nil => decide
    | cons kv m' =>
      obtain ⟨k, v⟩ := kv
      have hlen := length_le_prettyBody ((k, v) :: m')
      have hsave : saveManifest ((k, v) :: m') true =
          String.mk ('\x7b' :: '\n' :: manifestPrettyBody ((k, v) :: m')) := by
        simp [saveManifest]
      rw [hsave, loadManifest.eq_def]
      dsimp only
      rw [skipWs_cons_not '\x7b' _ (by decide)]
      dsimp only
      rw [if_pos rfl]
      cases m' with
      | nil =>
        have hscrut : skipWs ('\n' :: manifestPrettyBody [(k, v)]) =
            '"' :: (k.data.flatMap escChar ++ '"' ::
              (':' :: ' ' :: (quoteJson v ++ '\n' :: ['\x7d']))) := by
          rw [skipWs_cons_ws '\n' _ (by decide), manifestPrettyBody_one,
            skipWs_cons_ws ' ' _ (by decide), skipWs_cons_ws ' ' _ (by decide),
            skipWs_quote, quoteJson_shape]
        rw [hscrut]
        dsimp only
        rw [if_neg (by decide)]
        rw [parseEntries_pretty [(k, v)] _ (by simp)
          (by simp only [List.length_cons] at hlen ⊢; omega)]
        rfl
      | cons kv2 m'' =>
        have hscrut : skipWs ('\n' :: manifestPrettyBody ((k, v) :: kv2 :: m'')) =
            '"' :: (k.data.flatMap escChar ++ '"' ::
              (':' :: ' ' :: (quoteJson v ++ ',' :: '\n' ::
                manifestPrettyBody (kv2 :: m'')))) := by
          rw [skipWs_cons_ws '\n' _ (by decide), manifestPrettyBody_cons2,
            skipWs_cons_ws ' ' _ (by decide), skipWs_cons_ws ' ' _ (by decide),
            skipWs_quote, quoteJson_shape]
        rw [hscrut]
        dsimp only
        rw [if_neg (by decide)]
        rw [parseEntries_pretty ((k, v) :: kv2 :: m'') _ (by simp)
          (by simp only [List.length_cons] at hlen ⊢; omega)]
        rfl

/-! ## C4: canonicalization and key order -/

theorem jsize_pos (v : JsonVal) : 1 ≤ jsize v := by
  cases v <;> simp only [jsize] <;> omega

theorem lookupVal_objFields_size (k : String) :
    ∀ (o : JsonVal) (w : JsonVal), lookupVal k (objFields o) = some w → jsize w < jsize o := by
  intro o
  induction o with
  | objCons k' v' t ihv iht =>
    intro w h
    rw [objFields] at h
    rw [lookupVal] at h
    by_cases hk : (k' == k) = true
    · rw [if_pos hk] at h
      have : v' = w := Option.some.inj h
      subst this
      simp only [jsize]
      omega
    · rw [if_neg hk] at h
      have := iht w h
      simp only [jsize]
      omega
  | str s => intro w h; exact Option.noConfusion h
  | num n => intro w h; exact Option.noConfusion h
  | boolean b => intro w h; exact Option.noConfusion h
  | null => intro w h; exact Option.noConfusion h
  | arrNil => intro w h; exact Option.noConfusion h
  | arrCons a b iha ihb => intro w h; exact Option.noConfusion h
  | objNil => intro w h; exact Option.noConfusion h

theorem mem_keys_lookupVal (k : String) :
    ∀ l : JsObj, k ∈ l.map (·.1) → ∃ w, lookupVal k l = some w := by
  intro l
  induction l with
  | nil => intro h; exact absurd h (by simp)
  | cons p t ih =>
    intro h
    rw [lookupVal]
    by_cases hk : (p.1 == k) = true
    · exact ⟨p.2, by rw [if_pos hk]⟩
    · rw [if_neg hk]
      apply ih
      rcases List.mem_map.mp h with ⟨q, hq, hqk⟩
      rcases List.mem_cons.mp hq with rfl | hqt
      · exact absurd (by simp [hqk]) hk
      · exact List.mem_map.mpr ⟨q, hqt, hqk⟩

theorem sortObjectKeysF_not_obj (a : Nat) (v : JsonVal) (hv : isPlainObj v = false) :
    sortObjectKeysF (a + 1) v = v := by
  rw [sortObjectKeysF]
  rw [if_neg (by simp [hv])]

theorem sortObjectKeysF_obj (a : Nat) (v : JsonVal) (hv : isPlainObj v = true) :
    sortObjectKeysF (a + 1) v =
      objOfList ((sortStrings ((objFields v).map (·.1))).map (fun k =>
        (k, match lookupVal k (objFields v) with
            | some w => if isPlainObj w then sortObjectKeysF a w else w
            | none => .null))) := by
  rw [sortObjectKeysF]
  rw [if_pos (by simp [hv])]

theorem keyPermEqBF_not_obj (s : Nat) (v w : JsonVal)
    (h : (isPlainObj v && isPlainObj w) = false) :
    keyPermEqBF (s + 1) v w = (v == w) := by
  rw [keyPermEqBF]
  rw [if_neg (by simp [h])]

theorem keyPermEqBF_obj (s : Nat) (v w : JsonVal)
    (h : (isPlainObj v && isPlainObj w) = true) :
    keyPermEqBF (s + 1) v w =
      (decide ((objFields v).map (·.1)).Nodup && decide ((objFields w).map (·.1)).Nodup &&
      ((objFields v).map (·.1)).all (fun k => ((objFields w).map (·.1)).contains k) &&
      ((objFields w).map (·.1)).all (fun k => ((objFields v).map (·.1)).contains k) &&
      ((objFields v).map (·.1)).all (fun k =>
        match lookupVal k (objFields v), lookupVal k (objFields w) with
        | some a, some b => keyPermEqBF s a b
        | _, _ => false)) := by
  rw [keyPermEqBF]
  rw [if_pos (by simp at h ⊢; exact h)]

theorem sortObjectKeysF_congr : ∀ (N f1 f2 : Nat) (v : JsonVal), jsize v ≤ N →
    jsize v ≤ f1 → jsize v ≤ f2 → sortObjectKeysF f1 v = sortObjectKeysF f2 v := by
  intro N
  induction N with
  | zero => intro f1 f2 v hN; exact absurd hN (by have := jsize_pos v; omega)
  | succ n ih =>
    intro f1 f2 v hN h1 h2
    have hp := jsize_pos v
    cases f1 with
    | zero => omega
    | succ a =>
      cases f2 with
      | zero => omega
      | succ b =>
        by_cases hv : isPlainObj v = true
        · rw [sortObjectKeysF_obj a v hv, sortObjectKeysF_obj b v hv]
          congr 1
          apply List.map_congr_left
          intro k hk
          cases hw : lookupVal k (objFields v) with
          | none => rfl
          | some w =>
            have hsz : jsize w < jsize v := lookupVal_objFields_size k v w hw
            by_cases hwp : isPlainObj w = true
            · simp only [hwp, if_true]
              rw [ih a b w (by omega) (by omega) (by omega)]
            · simp only [hwp]
              rfl
        · have hv' : isPlainObj v = false := by simpa using hv
          rw [sortObjectKeysF_not_obj a v hv', sortObjectKeysF_not_obj b v hv']

theorem list_all_congr {α : Type} (l : List α) (f g : α → Bool)
    (h : ∀ x ∈ l, f x = g x) : l.all f = l.all g := by
  induction l with
  | nil => rfl
  | cons y ys ih =>
    have hy : f y = g y := h y (List.mem_cons_self y ys)
    have ht : ys.all f = ys.all g := ih fun x hx => h x (List.mem_cons_of_mem y hx)
    simp only [List.all_cons, hy, ht]

theorem keyPermEqBF_eq_of_not_both (t : Nat) (a b : JsonVal)
    (h : (isPlainObj a && isPlainObj b) = false)
    (hk : keyPermEqBF t a b = true) : a = b := by
  cases t with
  | zero => exact absurd hk (by rw [keyPermEqBF]; simp)
  | succ u =>
    rw [keyPermEqBF_not_obj u a b h] at hk
    exact beq_iff_eq.mp hk

theorem keyPermEqBF_isPlainObj_eq (t : Nat) (a b : JsonVal)
    (hk : keyPermEqBF t a b = true) : isPlainObj a = isPlainObj b := by
  by_cases h : (isPlainObj a && isPlainObj b) = true
  · simp only [Bool.and_eq_true] at h
    rw [h.1, h.2]
  · rw [keyPermEqBF_eq_of_not_both t a b (by simpa using h) hk]

theorem sortObjectKeysF_eq_of_keyPermEqBF :
    ∀ (N : Nat) (s f1 f2 : Nat) (v w : JsonVal), jsize v + jsize w ≤ N →
      jsize v ≤ f1 → jsize w ≤ f2 → keyPermEqBF s v w = true →
      sortObjectKeysF f1 v = sortObjectKeysF f2 w := by
  intro N
  induction N with
  | zero =>
    intro s f1 f2 v w hN
    exact absurd hN (by have := jsize_pos v; have := jsize_pos w; omega)
  | succ n ih =>
    intro s f1 f2 v w hN h1 h2 hk
    have hpv := jsize_pos v
    have hpw := jsize_pos w
    cases s with
    | zero => exact absurd hk (by rw [keyPermEqBF]; simp)
    | succ t =>
      cases f1 with
      | zero => omega
      | succ a =>
        cases f2 with
        | zero => omega
        | succ b =>
          by_cases hboth : (isPlainObj v && isPlainObj w) = true
          · have hv : isPlainObj v = true := (Bool.and_eq_true _ _ |>.mp hboth).1
            have hw : isPlainObj w = true := (Bool.and_eq_true _ _ |>.mp hboth).2
            rw [keyPermEqBF_obj t v w hboth] at hk
            simp only [Bool.and_eq_true, decide_eq_true_eq] at hk
            obtain ⟨⟨⟨⟨ndv, ndw⟩, sub1⟩, sub2⟩, hall⟩ := hk
            have hmem : ∀ k, k ∈ (objFields v).map (·.1) ↔ k ∈ (objFields w).map (·.1) := by
              intro k
              constructor
              · intro hx
                have := (List.all_eq_true.mp sub1) k hx
                simpa using this
              · intro hx
                have := (List.all_eq_true.mp sub2) k hx
                simpa using this
            have hperm : ((objFields v).map (·.1)).Perm ((objFields w).map (·.1)) :=
              (List.perm_ext_iff_of_nodup ndv ndw).mpr hmem
            have hK : sortStrings ((objFields v).map (·.1)) =
                sortStrings ((objFields w).map (·.1)) := by
              unfold sortStrings
              exact List.eq_of_perm_of_sorted
                ((List.perm_insertionSort _ _).trans
                  (hperm.trans (List.perm_insertionSort _ _).symm))
                (List.sorted_insertionSort _ _) (List.sorted_insertionSort _ _)
            rw [sortObjectKeysF_obj a v hv, sortObjectKeysF_obj b w hw, ← hK]
            refine congrArg objOfList (List.map_congr_left ?_)
            intro k hkmem
            have hkv : k ∈ (objFields v).map (·.1) :=
              (List.perm_insertionSort _ _).subset hkmem
            have hkw : k ∈ (objFields w).map (·.1) := (hmem k).mp hkv
            obtain ⟨va, hva⟩ := mem_keys_lookupVal k (objFields v) hkv
            obtain ⟨vb, hvb⟩ := mem_keys_lookupVal k (objFields w) hkw
            have hrel := (List.all_eq_true.mp hall) k hkv
            rw [hva, hvb] at hrel
            have hrel : keyPermEqBF t va vb = true := by simpa using hrel
            have hsa : jsize va < jsize v := lookupVal_objFields_size k v va (by
              have : objFields v = objFields v := rfl
              exact hva)
            have hsb : jsize vb < jsize w := lookupVal_objFields_size k w vb hvb
            rw [hva, hvb]
            have hpp := keyPermEqBF_isPlainObj_eq t va vb hrel
            by_cases hpa : isPlainObj va = true
            · have hpb : isPlainObj vb = true := hpp ▸ hpa
              simp only [hpa, hpb, if_true]
              rw [ih t a b va vb (by omega) (by omega) (by omega) hrel]
            · have hpb : isPlainObj vb = false := by
                rw [← hpp]; simpa using hpa
              have hpa' : isPlainObj va = false := by simpa using hpa
              simp only [hpa', hpb, Bool.false_eq_true, if_false]
              rw [keyPermEqBF_eq_of_not_both t va vb (by simp [hpa', hpb]) hrel]
          · have heq : v = w := keyPermEqBF_eq_of_not_both (t + 1) v w (by simpa using hboth) hk
            subst heq
            exact sortObjectKeysF_congr (jsize v) (a + 1) (b + 1) v le_rfl h1 h2

/-- **C4** (corrected): `canonicalizeMetadata` is invariant under re-ordering of
object keys at object nodes reached through object values: if two metadata
records are equal up to key order at such nodes (`KeyPermEq`), their canonical
strings coincide. (The original claim extends this to objects nested inside
arrays, which `sortObjectKeys` does not recurse into; see the counterexample.) -/
theorem claim4_canonical_key_order (l m : JsObj)
    (h : KeyPermEq (objOfList l) (objOfList m)) :
    canonicalizeMetadata l = canonicalizeMetadata m := by
  unfold canonicalizeMetadata stringifyVal
  have hs : sortObjectKeys (objOfList l) = sortObjectKeys (objOfList m) := by
    unfold sortObjectKeys
    exact sortObjectKeysF_eq_of_keyPermEqBF
      (jsize (objOfList l) + jsize (objOfList m))
      (jsize (objOfList l) + jsize (objOfList m))
      (jsize (objOfList l)) (jsize (objOfList m))
      (objOfList l) (objOfList m) le_rfl le_rfl le_rfl h
  rw [hs]

/-- Witness for C4: two records that permute keys at the top level and inside an
object-valued field have the same canonical string. -/
theorem claim4_canonical_key_order_witness :
    KeyPermEq (objOfList nestW1) (objOfList nestW2) ∧
      canonicalizeMetadata nestW1 = canonicalizeMetadata nestW2 :=
  ⟨by decide, claim4_canonical_key_order nestW1 nestW2 (by decide)⟩

/-- Counterexample to the claim as stated: the two records differ only in the
key order of an object nested inside an array (`KeyPermEq innerBA innerAB`
certifies they are equal up to key order), yet their canonical strings differ,
because `sortObjectKeys` returns arrays unchanged without recursing into their
elements. -/
theorem claim4_counterexample :
    KeyPermEq innerBA innerAB ∧
      canonicalizeMetadata arrObjBA ≠ canonicalizeMetadata arrObjAB := by
  decide
